import Mathlib

/-!
Verification of the tflite-to-onnx graph IR engine
(`src/tflite-onnx/onnx_tflite/`): a shallow embedding of the Python
source (`tree_structure.py`, `base_layer.py`, `aact_layers.py`,
`utils.py`, `tflite2onnx.py`) together with theorems settling the
frozen specification claims.

Machine integers of the source are modelled as `Int` (the Python code
uses unbounded ints); the tensor catalog (the tflite interpreter's
`_get_tensor_details`) is modelled as a function from tensor index to
tensor name, since the graph code only reads the `index` and `name`
fields of a detail record.
-/

namespace ONNXConv

/-! ### Flatbuffer enum constants (tflite generated schema)

`BuiltinOperator` and `ActivationFunctionType` are the generated
flatbuffer enums imported by the source; the numeric values are the
standard tflite schema values. -/

namespace BuiltinOperator

def ADD : Int := 0
def AVERAGE_POOL_2D : Int := 1
def CONCATENATION : Int := 2
def CONV_2D : Int := 3
def DEPTHWISE_CONV_2D : Int := 4
def FULLY_CONNECTED : Int := 9
def L2_NORMALIZATION : Int := 11
def LOGISTIC : Int := 14
def MAX_POOL_2D : Int := 17
def MUL : Int := 18
def RELU : Int := 19
def RELU6 : Int := 21
def RESHAPE : Int := 22
def RESIZE_BILINEAR : Int := 23
def SOFTMAX : Int := 25
def PAD : Int := 34
def MEAN : Int := 40
def SQUEEZE : Int := 43
def PRELU : Int := 54
def TRANSPOSE_CONV : Int := 67
def RESIZE_NEAREST_NEIGHBOR : Int := 97

end BuiltinOperator

namespace ActivationFunctionType

def NONE : Int := 0
def RELU : Int := 1
def RELU_N1_TO_1 : Int := 2
def RELU6 : Int := 3
def TANH : Int := 4
def SIGN_BIT : Int := 5

end ActivationFunctionType

/-! ### Data model -/

/-- One operator record of the source model: the ordered input tensor
indices (`op.Inputs(i)`), the first output tensor index
(`op.Outputs(0)`; the converter only ever reads output 0), and the
embedded fused-activation code of its builtin-options block. -/
structure TfliteOp where
  inputs : List Int
  output : Int
  fusedActivation : Int
deriving DecidableEq, Repr

/-- The tensor catalog: tensor index to tensor name, the part of
`tflite_interpreter._get_tensor_details` the graph code reads
(`detail['index']` is the index itself, `detail['name']` the name). -/
abbrev Catalog := Int → String

/-- A graph node (the Python `Layer` object's graph-structure fields,
`base_layer.py` lines 20-44).  `isDefused` records the Python class of
the object: `true` for synthesized `ActivationDefused` layers (which
inherit the base `defuse_activation_function` returning `None`),
`false` for ordinary operator layers. -/
structure GraphNode where
  node_idx : Int
  node_name : String
  input_nodes_idx : List Int
  input_nodes_name : List String
  output_nodes_idx : List Int
  output_nodes_name : List String
  op : Option TfliteOp
  opType : Int
  isDefused : Bool
deriving DecidableEq, Repr

abbrev Graph := List GraphNode

/-! ### utils.py -/

/-- `utils.tflite2onnx_shape_map`: channel-last to channel-first shape
map.  Returns `none` (Python `None`) for any list whose length is not
4; otherwise `[s0, s3, s1, s2]`. -/
def tflite2onnx_shape_map (shape_list : List Int) : Option (List Int) :=
  if shape_list.length ≠ 4 then none
  else some [shape_list.getD 0 0, shape_list.getD 3 0, shape_list.getD 1 0, shape_list.getD 2 0]

/-- `utils.getPadding`: explicit padding from the implicit tflite
padding mode.  Returns `none` (Python `None`) for a mode other than
`VALID`/`SAME`.  The list accesses `feat_map_size[1]`,
`feat_map_size[2]`, `kernel_size[0..1]`, `strides[0..1]` are modelled
with `getD` (the claims only use in-range inputs); `%` and `//` agree
with Python on the nonnegative values involved. -/
def getPadding (feat_map_size kernel_size strides : List Int) (mode : String) :
    Option (List Int) :=
  if mode ≠ "VALID" ∧ mode ≠ "SAME" then none
  else if mode = "VALID" then some [0, 0, 0, 0]
  else
    let fh := feat_map_size.getD 1 0
    let fw := feat_map_size.getD 2 0
    let kh := kernel_size.getD 0 0
    let kw := kernel_size.getD 1 0
    let sh := strides.getD 0 0
    let sw := strides.getD 1 0
    let pad_h : Int := if fh % sh = 0 then max (kh - sh) 0 else max (kh - fh % sh) 0
    let pad_w : Int := if fw % sw = 0 then max (kw - sw) 0 else max (kw - fw % sw) 0
    some [pad_h / 2, pad_w / 2, pad_h - pad_h / 2, pad_w - pad_w / 2]

/-! ### base_layer.py -/

/-- `Layer.__init__` with a real operator (`op is not None`): node
identity from the first output tensor's detail record, input edge
lists from the raw operator inputs, empty output edge lists. -/
def mkNode (cat : Catalog) (opTy : Int) (op : TfliteOp) : GraphNode :=
  { node_idx := op.output
    node_name := cat op.output
    input_nodes_idx := op.inputs
    input_nodes_name := op.inputs.map cat
    output_nodes_idx := []
    output_nodes_name := []
    op := some op
    opType := opTy
    isDefused := false }

/-! ### aact_layers.py -/

/-- `ActivationDefused.__init__` (`aact_layers.py` lines 40-44): build
a base layer from the host operator's record, then append `_Fused` to
the node name.  `ReluDefused` and `Relu6Defused` differ only in their
`generate` lowering, not in any graph-structure field, so one
constructor models both. -/
def mkDefusedNode (cat : Catalog) (opTy : Int) (op : TfliteOp) : GraphNode :=
  let base := mkNode cat opTy op
  { base with node_name := base.node_name ++ "_Fused", isDefused := true }

/-- `defused_activation_node_generator` (`aact_layers.py` lines
14-36): dispatch on the fused-activation code.  The second component
records whether a `warnings.warn` was emitted. -/
def defused_activation_node_generator (cat : Catalog) (activation_function_type : Int)
    (opTy : Int) (op : TfliteOp) : Option GraphNode × Bool :=
  if activation_function_type = ActivationFunctionType.NONE then (none, false)
  else if activation_function_type = ActivationFunctionType.RELU then
    (some (mkDefusedNode cat opTy op), false)
  else if activation_function_type = ActivationFunctionType.RELU_N1_TO_1 then (none, true)
  else if activation_function_type = ActivationFunctionType.RELU6 then
    (some (mkDefusedNode cat opTy op), false)
  else if activation_function_type = ActivationFunctionType.TANH then (none, true)
  else if activation_function_type = ActivationFunctionType.SIGN_BIT then (none, true)
  else (none, true)

/-- Modelled from the spec: the per-kind `Layer` subclasses in
`conv_layers.py`, `core_layers.py` and `merg_layers.py` (not under
`src/`) override `defuse_activation_function` to call
`defused_activation_node_generator` with the operator's embedded
fused-activation parameter; spec §4.2 names convolution, depthwise
convolution, fully-connected and elementwise add/mul as the kinds
carrying such a parameter.  All other kinds inherit the base method
(`base_layer.py` lines 79-87) returning `None`. -/
def fusableOpTypes : List Int :=
  [BuiltinOperator.CONV_2D, BuiltinOperator.DEPTHWISE_CONV_2D,
   BuiltinOperator.FULLY_CONNECTED, BuiltinOperator.ADD, BuiltinOperator.MUL]

/-- `Layer.defuse_activation_function` as dispatched on the object's
class: synthesized `ActivationDefused` layers and the non-fusable
kinds use the base method returning `None`; fusable kinds consult the
generator. -/
def defuse_activation_function (cat : Catalog) (n : GraphNode) : Option GraphNode :=
  if n.isDefused then none
  else
    match n.op with
    | none => none
    | some op =>
        if n.opType ∈ fusableOpTypes then
          (defused_activation_node_generator cat op.fusedActivation n.opType op).1
        else none

/-! ### tree_structure.py -/

/-- Python dict assignment `nodes[node.node_name] = node`: replace the
entry with the same key (keeping its position), else append. -/
def insertNode (g : Graph) (f : GraphNode) : Graph :=
  if g.any (fun n => n.node_name = f.node_name) then
    g.map (fun n => if n.node_name = f.node_name then f else n)
  else g ++ [f]

/-- The operator kinds recognized by `Tree.__node_generator`
(`tree_structure.py` lines 162-206), in dispatch order.  Every branch
of the Python if/elif chain constructs a `Layer` subclass whose
graph-structure fields are initialized identically by
`Layer.__init__`, so the chain is modelled as a membership test. -/
def recognizedOpTypes : List Int :=
  [BuiltinOperator.CONV_2D, BuiltinOperator.DEPTHWISE_CONV_2D, BuiltinOperator.SOFTMAX,
   BuiltinOperator.RELU, BuiltinOperator.RELU6, BuiltinOperator.PRELU,
   BuiltinOperator.LOGISTIC, BuiltinOperator.FULLY_CONNECTED, BuiltinOperator.RESHAPE,
   BuiltinOperator.PAD, BuiltinOperator.ADD, BuiltinOperator.MUL,
   BuiltinOperator.CONCATENATION, BuiltinOperator.MEAN, BuiltinOperator.MAX_POOL_2D,
   BuiltinOperator.AVERAGE_POOL_2D, BuiltinOperator.SQUEEZE,
   BuiltinOperator.RESIZE_NEAREST_NEIGHBOR, BuiltinOperator.RESIZE_BILINEAR,
   BuiltinOperator.L2_NORMALIZATION, BuiltinOperator.TRANSPOSE_CONV]

/-- `Tree.__node_generator`: an unrecognized kind tag raises
`ValueError(op_type)`, modelled as `Except.error op_type`. -/
def node_generator (cat : Catalog) (opTy : Int) (op : TfliteOp) : Except Int GraphNode :=
  if opTy ∈ recognizedOpTypes then .ok (mkNode cat opTy op) else .error opTy

/-- One iteration of the `Tree.__parse_graph` loop: generate the node
for an operator record and store it in the dict. -/
def parse_step (cat : Catalog) (g : Graph) (p : Int × TfliteOp) : Except Int Graph := do
  let n ← node_generator cat p.1 p.2
  pure (insertNode g n)

/-- `Tree.__parse_graph`: build the node dict in source operator
order; the first unrecognized kind aborts the whole construction. -/
def parse_graph (cat : Catalog) (ops : List (Int × TfliteOp)) : Except Int Graph :=
  ops.foldlM (parse_step cat) []

/-- `Tree.__eliminate_side_input`: drop every input index that is not
some node's `node_idx`, then (independently) every input name that is
not some node's key; no length comparison is performed. -/
def eliminate_side_input (g : Graph) : Graph :=
  let nodes_idx := g.map (fun n => n.node_idx)
  let g1 := g.map (fun n =>
    { n with input_nodes_idx := n.input_nodes_idx.filter (fun i => i ∈ nodes_idx) })
  let nodes_name := g1.map (fun n => n.node_name)
  g1.map (fun n =>
    { n with input_nodes_name := n.input_nodes_name.filter (fun nm => nm ∈ nodes_name) })

/-- The index entries appended to node `a`'s `output_nodes_idx` by the
first half of `Tree.__init_outputs_node_info`: iterating consumers `b`
in graph order and `b`'s inputs in list order, `b.node_idx` is
appended once per occurrence of `a.node_idx` (no duplicate check).
This is the loop's net effect on the dict `nodes_idx_dict` keyed by
`node_idx` (node indices are distinct in any graph the parser
produces, one node per output tensor index). -/
def outputIdxAdditions (g : Graph) (a : GraphNode) : List Int :=
  g.flatMap (fun b =>
    b.input_nodes_idx.filterMap (fun i => if i = a.node_idx then some b.node_idx else none))

/-- The name entries accumulated into node `a`'s `output_nodes_name`
by the second half of `Tree.__init_outputs_node_info`: iterating
consumers `b` in graph order and `b`'s input names in list order,
`b.node_name` is appended when the looked-up producer is `a` and
`b.node_name` is not already present (duplicate check). -/
def outputNameAdditions (g : Graph) (a : GraphNode) (start : List String) : List String :=
  g.foldl (fun acc b =>
    b.input_nodes_name.foldl (fun acc2 nm =>
      if nm = a.node_name ∧ b.node_name ∉ acc2 then acc2 ++ [b.node_name] else acc2) acc) start

/-- `Tree.__init_outputs_node_info` (`tree_structure.py` lines
90-112): invert the pruned input edges, by index (no duplicate check)
and by name (with duplicate check). -/
def init_outputs_node_info (g : Graph) : Graph :=
  g.map (fun a =>
    { a with
      output_nodes_idx := a.output_nodes_idx ++ outputIdxAdditions g a
      output_nodes_name := outputNameAdditions g a a.output_nodes_name })

/-- Python `for x in copy: l.remove(x)`: erase the first occurrence of
each element of `xs` from `l`. -/
def eraseEach (l xs : List String) : List String :=
  xs.foldl (fun acc x => acc.erase x) l

/-- Update every node keyed `nm` (dict value mutation; keys are unique
in any graph built through `insertNode`). -/
def updateNode (g : Graph) (nm : String) (f : GraphNode → GraphNode) : Graph :=
  g.map (fun n => if n.node_name = nm then f n else n)

/-- The NAME-edge rewiring of one de-fusion (`tree_structure.py`
lines 128-153), given the host node `n` (dict key `p`) and the
synthesized node `f0`:
* the host's `output_nodes_name` is emptied (removing each name of a
  copy of it) and the fused name appended;
* every former consumer has the host's name removed from
  `input_nodes_name` and the fused name appended.
The index lists are never touched. -/
def defuseRewire (p : String) (n f0 : GraphNode) (g : Graph) : Graph :=
  let f1 := { f0 with node_idx := -1 }
  let outs := n.output_nodes_name
  let g1 := updateNode g p (fun m =>
    { m with output_nodes_name := eraseEach m.output_nodes_name outs ++ [f1.node_name] })
  outs.foldl (fun acc onm => updateNode acc onm (fun m =>
    { m with input_nodes_name := m.input_nodes_name.erase p ++ [f1.node_name] })) g1

/-- The fused node as queued for insertion: sentinel index -1,
`input_nodes_name = [p]`, and the host's former `output_nodes_name`
(`tree_structure.py` lines 126, 146-147). -/
def defusePend (p : String) (n f0 : GraphNode) : GraphNode :=
  { f0 with
    node_idx := -1
    input_nodes_name := [p]
    output_nodes_name := n.output_nodes_name }

/-- One iteration of the de-fusion loop body (`tree_structure.py`
lines 119-156) for the dict key `p`: look the node up in the current
dict, ask it for a de-fused activation node, and if one is produced,
rewire the name edges and queue the fused node. -/
def defuseStep (cat : Catalog) (st : Graph × List GraphNode) (p : String) :
    Graph × List GraphNode :=
  match st.1.find? (fun n => n.node_name = p) with
  | none => st
  | some n =>
    match defuse_activation_function cat n with
    | none => st
    | some f0 => (defuseRewire p n f0 st.1, st.2 ++ [defusePend p n f0])

/-- `Tree.__defused` (`tree_structure.py` lines 114-160): when
enabled, run the de-fusion body over the dict keys and then insert the
queued fused nodes; when disabled, return immediately. -/
def defused (cat : Catalog) (enable_defuse : Bool) (g : Graph) : Graph :=
  if enable_defuse then
    let st := (g.map (fun n => n.node_name)).foldl (defuseStep cat) (g, [])
    st.2.foldl insertNode st.1
  else g

/-- `Tree.__init__`: parse the operator list, eliminate side inputs,
infer output edges, then (optionally) de-fuse activations. -/
def Tree.build (cat : Catalog) (ops : List (Int × TfliteOp)) (defusedFlag : Bool) :
    Except Int Graph := do
  let g ← parse_graph cat ops
  pure (defused cat defusedFlag (init_outputs_node_info (eliminate_side_input g)))

/-! ### tflite2onnx.py (pipeline driver) -/

/-- A target-IR node as built by `onnx.helper.make_node`: the fields
the driver reads or writes (`perm` is the transpose attribute, empty
for other kinds). -/
structure TargetNode where
  name : String
  op_type : String
  inputs : List String
  outputs : List String
  perm : List Int
deriving DecidableEq, Repr

/-- A shape/type annotation (`onnx.helper.make_tensor_value_info`);
`shape` is `none` where the Python passes `None`. -/
structure ValueInfo where
  name : String
  shape : Option (List Int)
deriving DecidableEq, Repr

/-- The triple returned by a lowering routine's `generate`:
`(node_list, value_infos, weight_node_list)`; weight nodes are kept
abstract as their names. -/
structure Batch where
  nodes : List TargetNode
  vals : List ValueInfo
  weights : List String
deriving DecidableEq, Repr

/-- An operator lowering routine, as called by the driver:
`(previous_onnx_node_names, op_type, op, table?) ↦ generate(...)`.
The per-kind routines live in layer files outside `src/`, so the
driver is verified for an arbitrary lowering function. -/
abbrev Lowering :=
  List String → Int → TfliteOp → Option (List (String × List String)) → Batch

/-- `op_name__sub_op_name__table` lookup (Python dict `in`/`[]`). -/
def lookupTable (t : List (String × List String)) (k : String) : Option (List String) :=
  (t.find? (fun e => e.1 = k)).map (fun e => e.2)

/-- `op_name__sub_op_name__table[k] = v` (dict assignment). -/
def insertTable (t : List (String × List String)) (k : String) (v : List String) :
    List (String × List String) :=
  if t.any (fun e => e.1 = k) then t.map (fun e => if e.1 = k then (k, v) else e)
  else t ++ [(k, v)]

/-- `build_head_transpose_node_for_channel_last_2_channel_first`
(`tflite2onnx.py` lines 89-99). -/
def build_head_transpose_node_for_channel_last_2_channel_first (input_name : String) :
    TargetNode :=
  { name := "transpose_node_input_" ++ input_name
    op_type := "Transpose"
    inputs := [input_name]
    outputs := ["transpose_node_input_" ++ input_name]
    perm := [0, 3, 1, 2] }

/-- `set_end_node` (`tflite2onnx.py` lines 45-53): returns the output
value info (shape run through `tflite2onnx_shape_map`) and the new
`output` list of the end node (the Python mutates the node in
place). -/
def set_end_node (onnx_end_node : TargetNode) (tflite_out_shape : List Int) :
    ValueInfo × List String :=
  let out_name := "out_" ++ onnx_end_node.name
  ({ name := out_name, shape := tflite2onnx_shape_map tflite_out_shape }, [out_name])

/-- `build_button_transpose_node_for_channel_first_2_channel_last`
(`tflite2onnx.py` lines 55-87): value info on the raw source shape; a
transpose with permutation `[0,2,3,1]` for rank 4, `[0,2,1]` for rank
3; otherwise no transpose and the end node's `output` is renamed (the
third component). -/
def build_button_transpose_node_for_channel_first_2_channel_last
    (onnx_end_node : TargetNode) (tflite_out_shape : List Int) :
    ValueInfo × Option TargetNode × Option (List String) :=
  let out_name := "out_" ++ onnx_end_node.name
  let vi : ValueInfo := { name := out_name, shape := some tflite_out_shape }
  if tflite_out_shape.length = 4 then
    (vi, some { name := "transpose_node_output_" ++ onnx_end_node.name
                op_type := "Transpose"
                inputs := [onnx_end_node.name]
                outputs := [out_name]
                perm := [0, 2, 3, 1] }, none)
  else if tflite_out_shape.length = 3 then
    (vi, some { name := "transpose_node_output_" ++ onnx_end_node.name
                op_type := "Transpose"
                inputs := [onnx_end_node.name]
                outputs := [out_name]
                perm := [0, 2, 1] }, none)
  else (vi, none, some [out_name])

/-- The driver's predecessor-name computation (`tflite2onnx.py` lines
147-150): the first entry of the pruned input-name list (the model
input name when that list is empty), translated through the sub-node
table to the last emitted sub-node name when present.  (Python
`list[-1]`; the driver only stores non-empty lists in the table.) -/
def driver_prev_name (table : List (String × List String)) (model_input_name : String)
    (n : GraphNode) : String :=
  let p0 := match n.input_nodes_name with
    | [] => model_input_name
    | x :: _ => x
  match lookupTable table p0 with
  | some l => l.getLastD p0
  | none => p0

/-- The three kinds that receive the sub-node table
(`tflite2onnx.py` line 155). -/
def mergeOpTypes : List Int :=
  [BuiltinOperator.ADD, BuiltinOperator.MUL, BuiltinOperator.CONCATENATION]

/-- The arguments the driver hands to a node's lowering routine
(`tflite2onnx.py` lines 147-158): a singleton predecessor-name list,
plus the sub-node table for add/mul/concatenation only. -/
def driverLowerArgs (table : List (String × List String)) (model_input_name : String)
    (n : GraphNode) : List String × Option (List (String × List String)) :=
  ([driver_prev_name table model_input_name n],
   if n.opType ∈ mergeOpTypes then some table else none)

/-- Fatal driver errors: an unrecognized operator kind raised while
the tree is built, a node without an operator record reaching the
loop, or an empty sub-node list where Python would raise
`IndexError` on `[-1]`. -/
inductive DriverError where
  | unknownOp (opTy : Int)
  | missingOpRecord
  | emptyLowering
deriving DecidableEq, Repr

/-- The driver loop's accumulators (`tflite2onnx.py` lines 104-109). -/
structure DriverState where
  table : List (String × List String)
  node_list : List TargetNode
  inner_vis : List ValueInfo
  weight_list : List String
  output_vis : List ValueInfo
deriving DecidableEq, Repr

/-- Rename the `output` list of the node object called `nm` inside an
accumulated node list (the Python mutates the shared object). -/
def renameNodeOutputs (nodes : List TargetNode) (nm : String) (outs : List String) :
    List TargetNode :=
  nodes.map (fun tn => if tn.name = nm then { tn with outputs := outs } else tn)

/-- One iteration of the driver's build loop (`tflite2onnx.py` lines
144-190): compute the predecessor name, lower the node, filter out
`Constant` nodes for the sub-node table, extend the accumulators, and
handle graph outputs according to the boundary-conversion flag. -/
def driverStep (lower : Lowering) (flag : Bool) (model_input_name : String)
    (output_details : List (String × List Int)) (st : DriverState) (n : GraphNode) :
    Except DriverError DriverState := do
  let args := driverLowerArgs st.table model_input_name n
  let op ← match n.op with
    | some op => pure op
    | none => throw DriverError.missingOpRecord
  let batch := lower args.1 n.opType op args.2
  let subs := batch.nodes.filter (fun tn => tn.op_type ≠ "Constant")
  let table1 := insertTable st.table n.node_name (subs.map (fun tn => tn.name))
  let nodes1 := st.node_list ++ batch.nodes
  let vis1 := st.inner_vis ++ batch.vals
  let ws1 := st.weight_list ++ batch.weights
  match output_details.find? (fun d => d.1 = n.node_name) with
  | none =>
      pure { table := table1, node_list := nodes1, inner_vis := vis1,
             weight_list := ws1, output_vis := st.output_vis }
  | some d =>
      let endNode ← match subs.getLast? with
        | some e => pure e
        | none => throw DriverError.emptyLowering
      if flag then
        let r := build_button_transpose_node_for_channel_first_2_channel_last endNode d.2
        let nodes2 := match r.2.2 with
          | some newOuts => renameNodeOutputs nodes1 endNode.name newOuts
          | none => nodes1
        let nodes3 := match r.2.1 with
          | some tn => nodes2 ++ [tn]
          | none => nodes2
        pure { table := table1, node_list := nodes3, inner_vis := vis1,
               weight_list := ws1, output_vis := st.output_vis ++ [r.1] }
      else
        let r := set_end_node endNode d.2
        let nodes2 := renameNodeOutputs nodes1 endNode.name r.2
        pure { table := table1, node_list := nodes2, inner_vis := vis1,
               weight_list := ws1, output_vis := st.output_vis ++ [r.1] }

/-- The tree the driver builds (`tflite2onnx.py` line 136): de-fusion
is hard-disabled (`defused=False`). -/
def driverTree (cat : Catalog) (ops : List (Int × TfliteOp)) : Except Int Graph :=
  Tree.build cat ops false

/-- The assembled conversion result (the data handed to
`helper.make_graph` / `onnx.save`). -/
structure DriverResult where
  nodes : List TargetNode
  input_vi : ValueInfo
  output_vis : List ValueInfo
  inner_vis : List ValueInfo
  weight_list : List String
deriving DecidableEq, Repr

/-- `main` (`tflite2onnx.py` lines 101-216): boundary setup for the
model input, tree construction (with de-fusion disabled), the node-by-
node build loop, and final assembly.  An error leaves no result — the
Python propagates the exception before `onnx.save` runs. -/
def mainDriver (lower : Lowering) (cat : Catalog) (ops : List (Int × TfliteOp))
    (model_input_name : String) (model_input_shape : List Int)
    (output_details : List (String × List Int)) (flag : Bool) :
    Except DriverError DriverResult := do
  let init : List TargetNode × ValueInfo × List (String × List String) :=
    if flag then
      let t := build_head_transpose_node_for_channel_last_2_channel_first model_input_name
      ([t], { name := model_input_name, shape := some model_input_shape },
       [(model_input_name, [model_input_name, t.name])])
    else
      ([], { name := model_input_name, shape := tflite2onnx_shape_map model_input_shape },
       [(model_input_name, [model_input_name, model_input_name])])
  let tree ← match driverTree cat ops with
    | .ok g => pure g
    | .error t => throw (DriverError.unknownOp t)
  let st0 : DriverState :=
    { table := init.2.2, node_list := init.1, inner_vis := [],
      weight_list := [], output_vis := [] }
  let st ← tree.foldlM (driverStep lower flag model_input_name output_details) st0
  pure { nodes := st.node_list, input_vi := init.2.1, output_vis := st.output_vis,
         inner_vis := st.inner_vis, weight_list := st.weight_list }

/-! ### Concrete instances and invariants used by the claim theorems -/

/-- Equality of all `GraphNode` fields the de-fusion pass never
touches (everything except the two name edge lists). -/
def coreEq (X Xr : GraphNode) : Prop :=
  Xr.node_name = X.node_name ∧ Xr.node_idx = X.node_idx ∧
  Xr.input_nodes_idx = X.input_nodes_idx ∧ Xr.output_nodes_idx = X.output_nodes_idx ∧
  Xr.op = X.op ∧ Xr.opType = X.opType ∧ Xr.isDefused = X.isDefused

/-- The fused node the de-fusion loop queues for dict key `p` of the
original graph `g0`, when one is produced. -/
def pendOf (cat : Catalog) (g0 : Graph) (p : String) : Option GraphNode :=
  (g0.find? (fun n => n.node_name = p)).bind (fun P =>
    (defuse_activation_function cat P).map (fun f => defusePend p P f))

/-- The net effect of the de-fusion of dict key `p` on the
`input_nodes_name` list `l` of the node named `xname`. -/
def applyEffect (cat : Catalog) (g0 : Graph) (xname : String) (l : List String)
    (p : String) : List String :=
  match g0.find? (fun n => n.node_name = p) with
  | none => l
  | some P =>
    match defuse_activation_function cat P with
    | none => l
    | some f =>
        if xname ∈ P.output_nodes_name then (l.erase p) ++ [f.node_name] else l

/-- The loop invariant of the de-fusion pass after processing the
dict keys `done`: every original node is found under its unchanged
name with its non-name-edge fields intact, its `output_nodes_name`
rewritten exactly when its own key was processed and it de-fuses, its
`input_nodes_name` carrying the accumulated effects of the processed
keys; the name sequence of the dict is unchanged; and the pending list
holds exactly the fused nodes of the processed keys. -/
def DefuseInv (cat : Catalog) (g0 : Graph) (done : List String)
    (st : Graph × List GraphNode) : Prop :=
  (∀ X ∈ g0, ∃ Xr, st.1.find? (fun n => n.node_name = X.node_name) = some Xr ∧
    coreEq X Xr ∧
    ((defuse_activation_function cat X = none ∨ X.node_name ∉ done) →
      Xr.output_nodes_name = X.output_nodes_name) ∧
    (∀ f, defuse_activation_function cat X = some f → X.node_name ∈ done →
      Xr.output_nodes_name = [f.node_name]) ∧
    Xr.input_nodes_name
      = done.foldl (applyEffect cat g0 X.node_name) X.input_nodes_name) ∧
  st.1.map (fun n => n.node_name) = g0.map (fun n => n.node_name) ∧
  st.2 = done.filterMap (pendOf cat g0)

/-- C1 counterexample input: a CONV_2D with embedded ReLU (tensor 1,
named `n`) consumed by a plain RELU (tensor 2, named `m`); tensor 0 is
a side input. -/
def c1cat : Catalog :=
  fun i => if i = 0 then "t0" else if i = 1 then "n" else if i = 2 then "m" else ""

def c1ops : List (Int × TfliteOp) :=
  [(BuiltinOperator.CONV_2D,
    { inputs := [0], output := 1, fusedActivation := ActivationFunctionType.RELU }),
   (BuiltinOperator.RELU, { inputs := [1], output := 2, fusedActivation := 0 })]

/-- The post-build (elimination + output inference) state of the C1
counterexample graph, which the enabled de-fusion pass then rewrites:
host node `n` and consumer `m`. -/
def c1nodeN : GraphNode :=
  { node_idx := 1, node_name := "n", input_nodes_idx := [], input_nodes_name := [],
    output_nodes_idx := [2], output_nodes_name := ["m"],
    op := some { inputs := [0], output := 1, fusedActivation := 1 },
    opType := 3, isDefused := false }

def c1nodeM : GraphNode :=
  { node_idx := 2, node_name := "m", input_nodes_idx := [1], input_nodes_name := ["n"],
    output_nodes_idx := [], output_nodes_name := [],
    op := some { inputs := [1], output := 2, fusedActivation := 0 },
    opType := 19, isDefused := false }

def c1graphW : Graph := [c1nodeN, c1nodeM]

/-- A two-node graph with one real edge (`b` consumes `a`), in the
state left by side-input elimination (empty output lists). -/
def c3nodeA : GraphNode :=
  { node_idx := 1, node_name := "a", input_nodes_idx := [], input_nodes_name := [],
    output_nodes_idx := [], output_nodes_name := [],
    op := some { inputs := [], output := 1, fusedActivation := 0 },
    opType := 19, isDefused := false }

def c3nodeB : GraphNode :=
  { node_idx := 2, node_name := "b", input_nodes_idx := [1], input_nodes_name := ["a"],
    output_nodes_idx := [], output_nodes_name := [],
    op := some { inputs := [1], output := 2, fusedActivation := 0 },
    opType := 19, isDefused := false }

def c3graphW : Graph := [c3nodeA, c3nodeB]

/-- A two-node graph for exercising the de-fusion pass: a TANH-fused
convolution (`opType` 3 = CONV_2D, activation 4 = TANH) and a
NONE-fused ReLU. -/
def c8graph : Graph :=
  [{ node_idx := 1, node_name := "c", input_nodes_idx := [],
     input_nodes_name := [], output_nodes_idx := [], output_nodes_name := [],
     op := some { inputs := [], output := 1, fusedActivation := 4 },
     opType := 3, isDefused := false },
   { node_idx := 2, node_name := "r", input_nodes_idx := [1],
     input_nodes_name := ["c"], output_nodes_idx := [], output_nodes_name := [],
     op := some { inputs := [1], output := 2, fusedActivation := 0 },
     opType := 19, isDefused := false }]

/-- C2 counterexample input: two single-output operators; tensor 5
(a side input of the second operator) shares the name `x` with the
first node while its index belongs to no node.  The index filter drops
it, the name filter keeps it. -/
def c2cat : Catalog :=
  fun i => if i = 1 then "x" else if i = 2 then "a" else if i = 5 then "x" else ""

def c2ops : List (Int × TfliteOp) :=
  [(BuiltinOperator.RELU, { inputs := [], output := 1, fusedActivation := 0 }),
   (BuiltinOperator.RELU, { inputs := [5], output := 2, fusedActivation := 0 })]

/-- A two-node graph whose second node has one real edge (to `x`) and
one side input (index 7 / name `w`), with consistent index/name
pairs. -/
def c2graphW : Graph :=
  [{ node_idx := 1, node_name := "x", input_nodes_idx := [], input_nodes_name := [],
     output_nodes_idx := [], output_nodes_name := [], op := none, opType := 19,
     isDefused := false },
   { node_idx := 2, node_name := "a", input_nodes_idx := [1, 7],
     input_nodes_name := ["x", "w"], output_nodes_idx := [], output_nodes_name := [],
     op := none, opType := 19, isDefused := false }]

/-- The second node of `c2graphW` after side-input elimination. -/
def c2nodeW : GraphNode :=
  { node_idx := 2, node_name := "a", input_nodes_idx := [1], input_nodes_name := ["x"],
    output_nodes_idx := [], output_nodes_name := [], op := none, opType := 19,
    isDefused := false }

def c3cat : Catalog := fun i => if i = 1 then "a" else if i = 2 then "b" else ""

def c3ops : List (Int × TfliteOp) :=
  [(BuiltinOperator.RELU, { inputs := [], output := 1, fusedActivation := 0 }),
   (BuiltinOperator.ADD, { inputs := [1, 1], output := 2, fusedActivation := 0 })]

/-- The per-step invariant of the driver loop with boundary conversion
disabled: no `Transpose` node is ever added beyond what the lowering
routine emits, and every output value info carries a
channel-first-remapped source shape. -/
def NoBoundaryInv (outd : List (String × List Int)) (st : DriverState) : Prop :=
  (∀ tn ∈ st.node_list, tn.op_type ≠ "Transpose") ∧
  (∀ vi ∈ st.output_vis, ∃ sh, (∃ nm, (nm, sh) ∈ outd) ∧
    vi.shape = tflite2onnx_shape_map sh)

/-- C7 counterexample input: a one-ReLU model, lowered by a routine
emitting a single `Relu` node. -/
def c7lower : Lowering := fun _ _ _ _ =>
  { nodes := [{ name := "n1", op_type := "Relu", inputs := ["inp"], outputs := ["n1"],
                perm := [] }],
    vals := [], weights := [] }

def c7cat : Catalog := fun i => if i = 0 then "inp" else if i = 1 then "n1" else ""

def c7ops : List (Int × TfliteOp) :=
  [(BuiltinOperator.RELU, { inputs := [0], output := 1, fusedActivation := 0 })]

/-- The result of the C7 concrete run. -/
def c7result : DriverResult :=
  { nodes := [{ name := "n1", op_type := "Relu", inputs := ["inp"],
                outputs := ["out_n1"], perm := [] }],
    input_vi := { name := "inp", shape := some [1, 3, 7, 7] },
    output_vis := [{ name := "out_n1", shape := some [1, 3, 7, 7] }],
    inner_vis := [], weight_list := [] }

end ONNXConv

namespace ONNXConv

/-! ### C5: padding calculator concrete scenario -/

/-- C5 counterexample: on `featureMapShape=[1,7,7,3]`,
`kernelSize=[3,3]`, `strides=[2,2]`, `mode=SAME` the code returns
`[1, 1, 1, 1]` (need = max(3 - 7 % 2, 0) = 2 on each spatial
dimension, split 1/1), not `(0,1,0,1)` as the claim states. -/
theorem C5_counterexample :
    getPadding [1, 7, 7, 3] [3, 3] [2, 2] "SAME" = some [1, 1, 1, 1] ∧
    getPadding [1, 7, 7, 3] [3, 3] [2, 2] "SAME" ≠ some [0, 1, 0, 1] := by
  constructor
  · rfl
  · decide

/-- C5 (amended): `computePadding(featureMapShape=[1,7,7,c],
kernelSize=[3,3], strides=[2,2], mode=SAME)` returns pad `(1,1,1,1)`
for height and width — 7 % 2 = 1, so need = max(3 - 1, 0) = 2 per
spatial dimension, split as need // 2 = 1 and need - need // 2 = 1 —
for every channel count `c`. -/
theorem C5_getPadding_same_7x7_k3_s2 (c : Int) :
    getPadding [1, 7, 7, c] [3, 3] [2, 2] "SAME" = some [1, 1, 1, 1] := rfl

/-! ### C6: channel-last to channel-first shape map -/

/-- C6 counterexample: a rank-3 shape is not passed through unchanged;
the code returns `None`. -/
theorem C6_counterexample :
    tflite2onnx_shape_map [1, 2, 3] = none ∧
    tflite2onnx_shape_map [1, 2, 3] ≠ some [1, 2, 3] := by
  constructor
  · rfl
  · decide

/-- C6 (amended): the shape map sends every rank-4 shape `[n,h,w,c]`
to `[n,c,h,w]`, and returns the absent value `None` (not the
unchanged shape) for every list whose rank is not 4. -/
theorem C6_shape_map_spec :
    (∀ n h w c : Int, tflite2onnx_shape_map [n, h, w, c] = some [n, c, h, w]) ∧
    (∀ l : List Int, l.length ≠ 4 → tflite2onnx_shape_map l = none) := by
  constructor
  · intro n h w c
    rfl
  · intro l hl
    simp [tflite2onnx_shape_map, hl]

/-- C6 witness: the amended statement applied at rank-4 input
`[1,7,7,3]` and at the rank-3 input `[1,2,3]`. -/
theorem C6_shape_map_spec_witness :
    tflite2onnx_shape_map [1, 7, 7, 3] = some [1, 3, 7, 7] ∧
    tflite2onnx_shape_map [1, 2, 3] = none := by
  refine ⟨C6_shape_map_spec.1 1 7 7 3, C6_shape_map_spec.2 [1, 2, 3] (by decide)⟩

/-! ### Helper lemmas on the graph builder -/

/-- Membership through a dict insertion. -/
lemma mem_insertNode {g : Graph} {f x : GraphNode} (hx : x ∈ insertNode g f) :
    x ∈ g ∨ x = f := by
  unfold insertNode at hx
  split at hx
  · rcases List.mem_map.1 hx with ⟨n, hn, rfl⟩
    split
    · exact Or.inr rfl
    · exact Or.inl hn
  · rcases List.mem_append.1 hx with h | h
    · exact Or.inl h
    · exact Or.inr (List.mem_singleton.1 h)

/-- The two independent side-input filters, as seen from a node of
the result graph. -/
lemma mem_eliminate_side_input {g : Graph} {m : GraphNode}
    (hm : m ∈ eliminate_side_input g) :
    ∃ n ∈ g,
      m.node_name = n.node_name ∧ m.isDefused = n.isDefused ∧
      m.input_nodes_idx
        = n.input_nodes_idx.filter (fun i => decide (i ∈ g.map (fun x => x.node_idx))) ∧
      m.input_nodes_name
        = n.input_nodes_name.filter (fun nm => decide (nm ∈ g.map (fun x => x.node_name))) := by
  simp only [eliminate_side_input] at hm
  have hnames :
      ((g.map (fun n : GraphNode =>
        { n with input_nodes_idx :=
            (n.input_nodes_idx.filter
              (fun i => decide (i ∈ g.map (fun x : GraphNode => x.node_idx)))) })).map
        (fun n => n.node_name)) = g.map (fun n => n.node_name) := by
    simp [List.map_map]
  rw [hnames] at hm
  rcases List.mem_map.1 hm with ⟨n1, hn1, rfl⟩
  rcases List.mem_map.1 hn1 with ⟨n, hn, rfl⟩
  exact ⟨n, hn, rfl, rfl, rfl, rfl⟩

/-- Filtering two lists of equal length with pointwise-agreeing
predicates yields equal lengths. -/
lemma length_filter_eq_of_pointwise (p : Int → Bool) (q : String → Bool) :
    ∀ (l₁ : List Int) (l₂ : List String), l₁.length = l₂.length →
      (∀ i (h₁ : i < l₁.length) (h₂ : i < l₂.length),
        p (l₁.get ⟨i, h₁⟩) = q (l₂.get ⟨i, h₂⟩)) →
      (l₁.filter p).length = (l₂.filter q).length := by
  intro l₁
  induction l₁ with
  | nil =>
    intro l₂ hlen _
    cases l₂ with
    | nil => rfl
    | cons b t₂ => simp at hlen
  | cons a t ih =>
    intro l₂ hlen hpt
    cases l₂ with
    | nil => simp at hlen
    | cons b t₂ =>
      have h0 : p a = q b := hpt 0 (by simp) (by simp)
      have ht : t.length = t₂.length := by simpa using hlen
      have hrec := ih t₂ ht (fun i h₁ h₂ => by
        simpa using hpt (i + 1) (by simpa using Nat.succ_lt_succ h₁)
          (by simpa using Nat.succ_lt_succ h₂))
      by_cases hb : q b = true
      · simp [List.filter_cons, h0, hb, hrec]
      · simp at hb
        simp [List.filter_cons, h0, hb, hrec]

/-! ### C2: side-input elimination has no fail-fast length check -/

/-- C2 counterexample: the build completes without any error while
node `a` is left with an input-index list of length 0 and an
input-name list of length 1 — no fatal error is raised on the
divergence. -/
theorem C2_counterexample :
    (Tree.build c2cat c2ops false).isOk = true ∧
    ((Tree.build c2cat c2ops false).toOption.map (fun g =>
      g.map (fun n => (n.node_name, n.input_nodes_idx.length, n.input_nodes_name.length))))
      = some [("x", 0, 0), ("a", 0, 1)] := by
  exact ⟨rfl, rfl⟩

/-- C2 (amended): the index filter and name filter of side-input
elimination run independently and no length comparison is made — a
divergence survives into the built graph (see the counterexample);
when the paired index/name entries of a node agree pointwise on
survival, the two surviving lists do keep equal length. -/
theorem C2_side_input_filter_lengths (g : Graph)
    (h : ∀ n ∈ g, n.input_nodes_idx.length = n.input_nodes_name.length ∧
      ∀ i (h₁ : i < n.input_nodes_idx.length) (h₂ : i < n.input_nodes_name.length),
        (n.input_nodes_idx.get ⟨i, h₁⟩ ∈ g.map (fun x => x.node_idx)) ↔
        (n.input_nodes_name.get ⟨i, h₂⟩ ∈ g.map (fun x => x.node_name))) :
    ∀ m ∈ eliminate_side_input g,
      m.input_nodes_idx.length = m.input_nodes_name.length := by
  intro m hm
  rcases mem_eliminate_side_input hm with ⟨n, hn, _, _, hidx, hname⟩
  rw [hidx, hname]
  exact length_filter_eq_of_pointwise _ _ _ _ (h n hn).1
    (fun i h₁ h₂ => by
      have := (h n hn).2 i h₁ h₂
      simpa using this)

/-- C2 witness: the amended statement at a concrete two-node graph
whose one real edge survives in both index and name form, applied to
the node surviving the elimination. -/
theorem C2_side_input_filter_lengths_witness :
    c2nodeW.input_nodes_idx.length = c2nodeW.input_nodes_name.length :=
  C2_side_input_filter_lengths c2graphW (by decide) c2nodeW (by decide)

/-! ### C3: output-edge inference (index form keeps duplicates) -/

/-- C3 counterexample: node `b` lists node `a` twice among its inputs;
after output-edge inference `a`'s output-index list records the edge
twice (`[2, 2]`) while the name form is deduplicated — the claim that
no output edge is recorded twice fails in index form. -/
theorem C3_counterexample :
    ((Tree.build c3cat c3ops false).toOption.map (fun g =>
      g.map (fun n => (n.node_name, n.output_nodes_idx, n.output_nodes_name))))
      = some [("a", [2, 2], ["b"]), ("b", [], [])] ∧
    ¬ ([2, 2] : List Int).Nodup := by
  exact ⟨rfl, by decide⟩

/-! ### C4: unknown operator kind is fatal before lowering -/

/-- The parse loop fails with the first unrecognized kind tag, from
any accumulated dict. -/
lemma parse_fold_error (cat : Catalog) :
    ∀ (ops : List (Int × TfliteOp)) (g : Graph),
      (∃ p ∈ ops, p.1 ∉ recognizedOpTypes) →
      ∃ t, t ∉ recognizedOpTypes ∧ ops.foldlM (parse_step cat) g = .error t := by
  intro ops
  induction ops with
  | nil =>
    intro g h
    rcases h with ⟨p, hp, _⟩
    exact absurd hp (List.not_mem_nil p)
  | cons q rest ih =>
    intro g h
    by_cases hq : q.1 ∈ recognizedOpTypes
    · have hrest : ∃ p ∈ rest, p.1 ∉ recognizedOpTypes := by
        rcases h with ⟨p, hp, hpt⟩
        rcases List.mem_cons.1 hp with rfl | hp'
        · exact absurd hq hpt
        · exact ⟨p, hp', hpt⟩
      rcases ih (insertNode g (mkNode cat q.1 q.2)) hrest with ⟨t, ht, herr⟩
      refine ⟨t, ht, ?_⟩
      rw [List.foldlM_cons]
      have hstep : parse_step cat g q = .ok (insertNode g (mkNode cat q.1 q.2)) := by
        simp [parse_step, node_generator, hq]
      rw [hstep]
      simpa using herr
    · refine ⟨q.1, hq, ?_⟩
      rw [List.foldlM_cons]
      have hstep : parse_step cat g q = .error q.1 := by
        simp [parse_step, node_generator, hq]
      rw [hstep]
      rfl

/-- C4: a source model containing an operator with an unrecognized
kind tag makes the tree construction — and with it the whole driver —
fail with a fatal `unknownOp` error; no `DriverResult` (and hence no
output model, and no lowering-emitted node) is produced. -/
theorem C4_unknown_op_fatal (lower : Lowering) (cat : Catalog)
    (ops : List (Int × TfliteOp)) (minput : String) (minshape : List Int)
    (outd : List (String × List Int)) (flag : Bool)
    (h : ∃ p ∈ ops, p.1 ∉ recognizedOpTypes) :
    ∃ t, t ∉ recognizedOpTypes ∧
      Tree.build cat ops false = .error t ∧
      mainDriver lower cat ops minput minshape outd flag = .error (DriverError.unknownOp t) := by
  rcases parse_fold_error cat ops [] h with ⟨t, ht, herr⟩
  have hbuild : Tree.build cat ops false = .error t := by
    unfold Tree.build parse_graph
    rw [herr]
    rfl
  refine ⟨t, ht, hbuild, ?_⟩
  unfold mainDriver driverTree
  rw [hbuild]
  rfl

/-- C4 witness: a one-operator model with the unrecognized kind tag
999 aborts with `unknownOp 999`. -/
theorem C4_unknown_op_fatal_witness :
    ∃ t, t ∉ recognizedOpTypes ∧
      Tree.build c2cat [((999 : Int), { inputs := [], output := 1, fusedActivation := 0 })]
        false = .error t ∧
      mainDriver (fun _ _ _ _ => { nodes := [], vals := [], weights := [] }) c2cat
        [((999 : Int), { inputs := [], output := 1, fusedActivation := 0 })]
        "inp" [1] [] true = .error (DriverError.unknownOp t) := by
  exact C4_unknown_op_fatal _ c2cat _ "inp" [1] [] true
    ⟨((999 : Int), { inputs := [], output := 1, fusedActivation := 0 }), by decide, by decide⟩

/-! ### C9: the driver never enables de-fusion -/

/-- Every node the parse loop ever stores is an ordinary (not
synthesized) layer object. -/
lemma parse_fold_not_defused (cat : Catalog) :
    ∀ (ops : List (Int × TfliteOp)) (g gF : Graph),
      (∀ n ∈ g, n.isDefused = false) →
      ops.foldlM (parse_step cat) g = .ok gF →
      ∀ n ∈ gF, n.isDefused = false := by
  intro ops
  induction ops with
  | nil =>
    intro g gF hg hok
    simp only [List.foldlM_nil] at hok
    cases hok
    exact hg
  | cons q rest ih =>
    intro g gF hg hok
    rw [List.foldlM_cons] at hok
    by_cases hq : q.1 ∈ recognizedOpTypes
    · have hstep : parse_step cat g q = .ok (insertNode g (mkNode cat q.1 q.2)) := by
        simp [parse_step, node_generator, hq]
      rw [hstep] at hok
      refine ih (insertNode g (mkNode cat q.1 q.2)) gF ?_ (by simpa using hok)
      intro n hn
      rcases mem_insertNode hn with h | rfl
      · exact hg n h
      · rfl
    · have hstep : parse_step cat g q = .error q.1 := by
        simp [parse_step, node_generator, hq]
      rw [hstep] at hok
      cases hok

/-- A node of the output-inference result, traced back to its
pre-pass original (the pass only extends output edge lists). -/
lemma mem_init_outputs {g : Graph} {m : GraphNode}
    (hm : m ∈ init_outputs_node_info g) :
    ∃ n ∈ g, m.node_name = n.node_name ∧ m.node_idx = n.node_idx ∧
      m.isDefused = n.isDefused ∧ m.op = n.op ∧ m.opType = n.opType ∧
      m.input_nodes_idx = n.input_nodes_idx ∧ m.input_nodes_name = n.input_nodes_name ∧
      m.output_nodes_idx = n.output_nodes_idx ++ outputIdxAdditions g n ∧
      m.output_nodes_name = outputNameAdditions g n n.output_nodes_name := by
  simp only [init_outputs_node_info] at hm
  rcases List.mem_map.1 hm with ⟨n, hn, rfl⟩
  exact ⟨n, hn, rfl, rfl, rfl, rfl, rfl, rfl, rfl, rfl, rfl⟩

/-- C9: de-fusion disabled is the identity on the graph, and the
driver hard-codes `defused=False` when building its tree
(`tflite2onnx.py` line 136), so no node of any graph a conversion run
lowers is a synthesized `_Fused` activation node. -/
theorem C9_driver_never_defuses :
    (∀ (cat : Catalog) (g : Graph), defused cat false g = g) ∧
    (∀ (cat : Catalog) (ops : List (Int × TfliteOp)) (g : Graph),
      driverTree cat ops = .ok g → ∀ n ∈ g, n.isDefused = false) := by
  constructor
  · intro cat g
    simp [defused]
  · intro cat ops g hok n hn
    unfold driverTree Tree.build at hok
    cases hp : parse_graph cat ops with
    | error t =>
      rw [hp] at hok
      cases hok
    | ok g0 =>
      rw [hp] at hok
      have hok' :
          Except.ok (defused cat false (init_outputs_node_info (eliminate_side_input g0)))
            = Except.ok g := hok
      have hg : g = defused cat false (init_outputs_node_info (eliminate_side_input g0)) := by
        injection hok' with h
        exact h.symm
      rw [hg] at hn
      simp only [defused, if_neg (by simp : ¬ (false = true))] at hn
      rcases mem_init_outputs hn with ⟨n1, hn1, _, _, hdef1, _⟩
      rcases mem_eliminate_side_input hn1 with ⟨n0, hn0, _, hdef0, _⟩
      have := parse_fold_not_defused cat ops [] g0 (by intro x hx; cases hx) hp n0 hn0
      rw [hdef1, hdef0, this]

/-- C9 witness: a one-node model run through the driver's tree
construction yields a graph with no synthesized node. -/
theorem C9_driver_never_defuses_witness :
    ∀ n ∈ [({ node_idx := 1, node_name := "x", input_nodes_idx := [],
              input_nodes_name := [], output_nodes_idx := [], output_nodes_name := [],
              op := some { inputs := [], output := 1, fusedActivation := 0 },
              opType := 19, isDefused := false } : GraphNode)],
      n.isDefused = false := by
  exact C9_driver_never_defuses.2 (fun _ => "x")
    [(BuiltinOperator.RELU, { inputs := [], output := 1, fusedActivation := 0 })] _ rfl

/-! ### C10: one predecessor name for non-merge kinds -/

/-- C10: for a node whose kind is not add/mul/concatenation the driver
passes its lowering routine no table and exactly one predecessor name:
the first entry of the pruned input-name list (the model input name
when that list is empty), translated through the sub-node table to the
last emitted sub-node name; entries of the input-name list beyond the
first have no effect on the driver step at all. -/
theorem C10_single_predecessor_name (table : List (String × List String))
    (minput : String) (n : GraphNode) (h : n.opType ∉ mergeOpTypes) :
    (driverLowerArgs table minput n).2 = none ∧
    (driverLowerArgs table minput n).1 = [driver_prev_name table minput n] ∧
    (∀ x l, n.input_nodes_name = x :: l →
      driver_prev_name table minput n =
        (match lookupTable table x with
         | some e => e.getLastD x
         | none => x)) ∧
    (n.input_nodes_name = [] →
      driver_prev_name table minput n =
        (match lookupTable table minput with
         | some e => e.getLastD minput
         | none => minput)) ∧
    (∀ (lower : Lowering) (flag : Bool) (outd : List (String × List Int))
        (st : DriverState) (x : String) (l l' : List String),
      driverStep lower flag minput outd st { n with input_nodes_name := x :: l } =
      driverStep lower flag minput outd st { n with input_nodes_name := x :: l' }) := by
  refine ⟨by simp [driverLowerArgs, h], rfl, ?_, ?_, ?_⟩
  · intro x l hx
    unfold driver_prev_name
    rw [hx]
  · intro hx
    unfold driver_prev_name
    rw [hx]
  · intro lower flag outd st x l l'
    rfl

/-- An invariant carried through an `Except`-valued left fold. -/
lemma foldlM_except_inv {σ α ε : Type} (step : σ → α → Except ε σ) (P : σ → Prop) :
    ∀ (l : List α) (s : σ), P s →
      (∀ s' a, a ∈ l → P s' → ∀ s'', step s' a = .ok s'' → P s'') →
      ∀ sF, l.foldlM step s = .ok sF → P sF := by
  intro l
  induction l with
  | nil =>
    intro s hs _ sF hok
    simp only [List.foldlM_nil] at hok
    cases hok
    exact hs
  | cons a t ih =>
    intro s hs hstep sF hok
    rw [List.foldlM_cons] at hok
    cases hsa : step s a with
    | error e =>
      rw [hsa] at hok
      cases hok
    | ok s' =>
      rw [hsa] at hok
      exact ih s' (hstep s a (List.mem_cons_self a t) hs s' hsa)
        (fun s₁ b hb => hstep s₁ b (List.mem_cons_of_mem a hb)) sF (by simpa using hok)

lemma driverStep_false_inv (lower : Lowering) (minput : String)
    (outd : List (String × List Int))
    (hlower : ∀ prevs t op tbl, ∀ tn ∈ (lower prevs t op tbl).nodes,
      tn.op_type ≠ "Transpose")
    (st : DriverState) (n : GraphNode) (hst : NoBoundaryInv outd st)
    (st' : DriverState) (h : driverStep lower false minput outd st n = .ok st') :
    NoBoundaryInv outd st' := by
  unfold driverStep at h
  cases hop : n.op with
  | none =>
    rw [hop] at h
    cases h
  | some op =>
    rw [hop] at h
    simp only [bind, Except.bind, pure, Except.pure] at h
    have hnodes1 : ∀ tn ∈ st.node_list ++
        (lower (driverLowerArgs st.table minput n).1 n.opType op
          (driverLowerArgs st.table minput n).2).nodes,
        tn.op_type ≠ "Transpose" := by
      intro tn htn
      rcases List.mem_append.1 htn with h1 | h1
      · exact hst.1 tn h1
      · exact hlower _ _ _ _ tn h1
    cases hfind : outd.find? (fun d => d.1 = n.node_name) with
    | none =>
      rw [hfind] at h
      cases h
      exact ⟨hnodes1, hst.2⟩
    | some d =>
      rw [hfind] at h
      cases hlast : ((lower (driverLowerArgs st.table minput n).1 n.opType op
          (driverLowerArgs st.table minput n).2).nodes.filter
            (fun tn => tn.op_type ≠ "Constant")).getLast? with
      | none =>
        rw [hlast] at h
        cases h
      | some e =>
        rw [hlast] at h
        simp only [Bool.false_eq_true, if_false] at h
        cases h
        constructor
        · intro tn htn
          rcases List.mem_map.1 htn with ⟨tn0, htn0, rfl⟩
          have : tn0.op_type ≠ "Transpose" := hnodes1 tn0 htn0
          by_cases he : tn0.name = e.name <;> simp [he, this]
        · intro vi hvi
          rcases List.mem_append.1 hvi with h1 | h1
          · exact hst.2 vi h1
          · have hvi' : vi = (set_end_node e d.2).1 := by
              simpa using h1
            refine ⟨d.2, ⟨d.1, ?_⟩, ?_⟩
            · have := List.mem_of_find?_eq_some hfind
              simpa using this
            · rw [hvi']
              rfl

/-- C7 (amended): with boundary conversion disabled the driver inserts
no transpose node anywhere (if the lowering routines emit none, the
result contains none) — but the input and output shape annotations are
declared in channel-FIRST form: every declared shape is the source
shape run through `tflite2onnx_shape_map` (rank-4 remapped to
`[n,c,h,w]`, other ranks replaced by the absent value), not the
unpermuted channel-last shape. -/
theorem C7_disabled_boundary (lower : Lowering) (cat : Catalog)
    (ops : List (Int × TfliteOp)) (minput : String) (minshape : List Int)
    (outd : List (String × List Int)) (r : DriverResult)
    (hlower : ∀ prevs t op tbl, ∀ tn ∈ (lower prevs t op tbl).nodes,
      tn.op_type ≠ "Transpose")
    (h : mainDriver lower cat ops minput minshape outd false = .ok r) :
    r.input_vi.shape = tflite2onnx_shape_map minshape ∧
    (∀ tn ∈ r.nodes, tn.op_type ≠ "Transpose") ∧
    (∀ vi ∈ r.output_vis, ∃ sh, (∃ nm, (nm, sh) ∈ outd) ∧
      vi.shape = tflite2onnx_shape_map sh) := by
  unfold mainDriver at h
  cases ht : driverTree cat ops with
  | error t =>
    rw [ht] at h
    cases h
  | ok tree =>
    rw [ht] at h
    simp only [bind, Except.bind, pure, Except.pure, Bool.false_eq_true, if_false] at h
    cases hfold : tree.foldlM
        (driverStep lower false minput outd)
        { table := [(minput, [minput, minput])], node_list := [], inner_vis := [],
          weight_list := [], output_vis := [] } with
    | error e =>
      rw [hfold] at h
      cases h
    | ok st =>
      rw [hfold] at h
      cases h
      have hinv : NoBoundaryInv outd st := by
        refine foldlM_except_inv _ (NoBoundaryInv outd) tree _
          ⟨fun tn htn => absurd htn (List.not_mem_nil tn),
           fun vi hvi => absurd hvi (List.not_mem_nil vi)⟩ ?_ st hfold
        intro s' a _ hP s'' hok
        exact driverStep_false_inv lower minput outd hlower s' a hP s'' hok
      exact ⟨rfl, hinv.1, hinv.2⟩

/-- C7 counterexample: with boundary conversion disabled and a rank-4
model input `[1,7,7,3]`, the run succeeds with no transposes but the
input annotation is declared as `[1,3,7,7]` — the channel-FIRST remap,
not the channel-last source shape the claim states. -/
theorem C7_counterexample :
    mainDriver c7lower c7cat c7ops "inp" [1, 7, 7, 3] [("n1", [1, 7, 7, 3])] false
      = .ok c7result ∧
    c7result.input_vi.shape ≠ some [1, 7, 7, 3] := by
  exact ⟨rfl, by decide⟩

/-- C7 witness: the amended statement applied to the concrete
one-ReLU run. -/
theorem C7_disabled_boundary_witness :
    c7result.input_vi.shape = tflite2onnx_shape_map [1, 7, 7, 3] ∧
    (∀ tn ∈ c7result.nodes, tn.op_type ≠ "Transpose") ∧
    (∀ vi ∈ c7result.output_vis,
      ∃ sh, (∃ nm, (nm, sh) ∈ [("n1", [(1 : Int), 7, 7, 3])]) ∧
        vi.shape = tflite2onnx_shape_map sh) := by
  refine C7_disabled_boundary c7lower c7cat c7ops "inp" [1, 7, 7, 3]
    [("n1", [1, 7, 7, 3])] _ ?_ rfl
  intro prevs t op tbl tn htn
  simp only [c7lower, List.mem_singleton] at htn
  rw [htn]
  decide

/-- Membership in the index additions of output-edge inference. -/
lemma mem_outputIdxAdditions {g : Graph} {a : GraphNode} {x : Int} :
    x ∈ outputIdxAdditions g a ↔
      ∃ b ∈ g, a.node_idx ∈ b.input_nodes_idx ∧ x = b.node_idx := by
  unfold outputIdxAdditions
  rw [List.mem_flatMap]
  constructor
  · rintro ⟨b, hb, hx⟩
    rcases List.mem_filterMap.1 hx with ⟨i, hi, hif⟩
    by_cases hia : i = a.node_idx
    · simp only [hia, if_pos rfl] at hif
      injection hif with hif
      exact ⟨b, hb, hia ▸ hi, hif.symm⟩
    · simp [hia] at hif
  · rintro ⟨b, hb, hab, rfl⟩
    exact ⟨b, hb, List.mem_filterMap.2 ⟨a.node_idx, hab, by simp⟩⟩

/-- Membership through the inner deduplicating fold of the name half
of output-edge inference. -/
lemma outputName_inner_mem (t bn x : String) :
    ∀ (names acc : List String),
      (x ∈ names.foldl
        (fun acc2 nm => if nm = t ∧ bn ∉ acc2 then acc2 ++ [bn] else acc2) acc) ↔
      (x ∈ acc ∨ (t ∈ names ∧ x = bn)) := by
  intro names
  induction names with
  | nil => simp
  | cons nm rest ih =>
    intro acc
    rw [List.foldl_cons]
    by_cases hc : nm = t ∧ bn ∉ acc
    · rw [if_pos hc, ih]
      constructor
      · rintro (h | h)
        · rcases List.mem_append.1 h with h' | h'
          · exact Or.inl h'
          · exact Or.inr ⟨hc.1 ▸ List.mem_cons_self nm rest, List.mem_singleton.1 h'⟩
        · exact Or.inr ⟨List.mem_cons_of_mem nm h.1, h.2⟩
      · rintro (h | ⟨_, rfl⟩)
        · exact Or.inl (List.mem_append.2 (Or.inl h))
        · exact Or.inl (List.mem_append.2 (Or.inr (List.mem_singleton.2 rfl)))
    · rw [if_neg hc, ih]
      constructor
      · rintro (h | h)
        · exact Or.inl h
        · exact Or.inr ⟨List.mem_cons_of_mem nm h.1, h.2⟩
      · rintro (h | ⟨hm, rfl⟩)
        · exact Or.inl h
        · rcases List.mem_cons.1 hm with he | hm'
          · rcases not_and_or.1 hc with h1 | h1
            · exact absurd he.symm h1
            · exact Or.inl (Decidable.not_not.1 h1)
          · exact Or.inr ⟨hm', rfl⟩

/-- The inner fold preserves distinctness of the accumulator. -/
lemma outputName_inner_nodup (t bn : String) :
    ∀ (names acc : List String), acc.Nodup →
      (names.foldl
        (fun acc2 nm => if nm = t ∧ bn ∉ acc2 then acc2 ++ [bn] else acc2) acc).Nodup := by
  intro names
  induction names with
  | nil => intro acc h; exact h
  | cons nm rest ih =>
    intro acc h
    rw [List.foldl_cons]
    by_cases hc : nm = t ∧ bn ∉ acc
    · rw [if_pos hc]
      refine ih _ ?_
      rw [← List.concat_eq_append]
      exact List.Nodup.concat hc.2 h
    · rw [if_neg hc]
      exact ih acc h

/-- Membership in the name additions of output-edge inference. -/
lemma mem_outputNameAdditions {a : GraphNode} {x : String} :
    ∀ (g : Graph) (start : List String),
      (x ∈ outputNameAdditions g a start) ↔
      (x ∈ start ∨ ∃ b ∈ g, a.node_name ∈ b.input_nodes_name ∧ x = b.node_name) := by
  intro g
  induction g with
  | nil => simp [outputNameAdditions]
  | cons b rest ih =>
    intro start
    unfold outputNameAdditions
    rw [List.foldl_cons]
    have hstep := ih (b.input_nodes_name.foldl
      (fun acc2 nm => if nm = a.node_name ∧ b.node_name ∉ acc2 then acc2 ++ [b.node_name]
        else acc2) start)
    unfold outputNameAdditions at hstep
    rw [hstep, outputName_inner_mem a.node_name b.node_name x b.input_nodes_name start]
    constructor
    · rintro ((h | h) | ⟨b', hb', hab', rfl⟩)
      · exact Or.inl h
      · exact Or.inr ⟨b, List.mem_cons_self b rest, h.1, h.2⟩
      · exact Or.inr ⟨b', List.mem_cons_of_mem b hb', hab', rfl⟩
    · rintro (h | ⟨b', hb', hab', rfl⟩)
      · exact Or.inl (Or.inl h)
      · rcases List.mem_cons.1 hb' with rfl | hb''
        · exact Or.inl (Or.inr ⟨hab', rfl⟩)
        · exact Or.inr ⟨b', hb'', hab', rfl⟩

/-- The name additions keep the list duplicate-free. -/
lemma nodup_outputNameAdditions {a : GraphNode} :
    ∀ (g : Graph) (start : List String), start.Nodup →
      (outputNameAdditions g a start).Nodup := by
  intro g
  induction g with
  | nil => intro start h; exact h
  | cons b rest ih =>
    intro start h
    unfold outputNameAdditions
    rw [List.foldl_cons]
    have := outputName_inner_nodup a.node_name b.node_name b.input_nodes_name start h
    exact ih _ this

/-- Nodes are determined by their index when the index list is
duplicate-free. -/
lemma node_eq_of_idx {g : Graph} (h : (g.map (fun n => n.node_idx)).Nodup)
    {b b' : GraphNode} (hb : b ∈ g) (hb' : b' ∈ g) (he : b.node_idx = b'.node_idx) :
    b = b' :=
  List.inj_on_of_nodup_map h hb hb' he

/-- Nodes are determined by their name when the name list is
duplicate-free. -/
lemma node_eq_of_name {g : Graph} (h : (g.map (fun n => n.node_name)).Nodup)
    {b b' : GraphNode} (hb : b ∈ g) (hb' : b' ∈ g) (he : b.node_name = b'.node_name) :
    b = b' :=
  List.inj_on_of_nodup_map h hb hb' he

/-- C3 (amended): on any graph in the post-elimination state (empty
output lists, duplicate-free node indices and names), output-edge
inference produces the exact inverse of the input edges in membership
terms, in both index and name form: A is in B's input set iff B is in
A's output set.  The NAME form is deduplicated; the INDEX form appends
one entry per input occurrence, so an output edge IS recorded twice in
index form when B lists A twice (see the counterexample). -/
theorem C3_output_edges_inverse (g : Graph)
    (hidx : (g.map (fun n => n.node_idx)).Nodup)
    (hname : (g.map (fun n => n.node_name)).Nodup)
    (hempty : ∀ n ∈ g, n.output_nodes_idx = [] ∧ n.output_nodes_name = []) :
    ∀ a ∈ g, ∃ a', a' ∈ init_outputs_node_info g ∧
      a'.node_name = a.node_name ∧ a'.node_idx = a.node_idx ∧
      a'.input_nodes_idx = a.input_nodes_idx ∧
      a'.input_nodes_name = a.input_nodes_name ∧
      (∀ b ∈ g,
        (b.node_idx ∈ a'.output_nodes_idx ↔ a.node_idx ∈ b.input_nodes_idx) ∧
        (b.node_name ∈ a'.output_nodes_name ↔ a.node_name ∈ b.input_nodes_name)) ∧
      a'.output_nodes_name.Nodup := by
  intro a ha
  refine ⟨{ a with
      output_nodes_idx := a.output_nodes_idx ++ outputIdxAdditions g a
      output_nodes_name := outputNameAdditions g a a.output_nodes_name },
    List.mem_map_of_mem _ ha, rfl, rfl, rfl, rfl, ?_, ?_⟩
  · intro b hb
    constructor
    · rw [(hempty a ha).1]
      simp only [List.nil_append]
      rw [mem_outputIdxAdditions]
      constructor
      · rintro ⟨b', hb', hab', he⟩
        have : b = b' := node_eq_of_idx hidx hb hb' he
        rw [this]
        exact hab'
      · intro h
        exact ⟨b, hb, h, rfl⟩
    · rw [(hempty a ha).2, mem_outputNameAdditions g []]
      simp only [List.not_mem_nil, false_or]
      constructor
      · rintro ⟨b', hb', hab', he⟩
        have : b = b' := node_eq_of_name hname hb hb' he
        rw [this]
        exact hab'
      · intro h
        exact ⟨b, hb, h, rfl⟩
  · rw [(hempty a ha).2]
    exact nodup_outputNameAdditions g [] List.nodup_nil

/-- C3 witness: the amended statement applied to node `a` of the
two-node graph with the single edge `a → b`. -/
theorem C3_output_edges_inverse_witness :
    ∃ a', a' ∈ init_outputs_node_info c3graphW ∧
      a'.node_name = c3nodeA.node_name ∧ a'.node_idx = c3nodeA.node_idx ∧
      a'.input_nodes_idx = c3nodeA.input_nodes_idx ∧
      a'.input_nodes_name = c3nodeA.input_nodes_name ∧
      (∀ b ∈ c3graphW,
        (b.node_idx ∈ a'.output_nodes_idx ↔ c3nodeA.node_idx ∈ b.input_nodes_idx) ∧
        (b.node_name ∈ a'.output_nodes_name ↔ c3nodeA.node_name ∈ b.input_nodes_name)) ∧
      a'.output_nodes_name.Nodup := by
  exact C3_output_edges_inverse c3graphW (by decide) (by decide) (by decide)
    c3nodeA (by decide)

/-- For any fused-activation code other than ReLU/ReLU6 the generator
synthesizes nothing. -/
lemma generator_none_of_unsupported (cat : Catalog) (a t : Int) (op : TfliteOp)
    (h1 : a ≠ ActivationFunctionType.RELU) (h3 : a ≠ ActivationFunctionType.RELU6) :
    (defused_activation_node_generator cat a t op).1 = none := by
  unfold defused_activation_node_generator
  split_ifs <;> simp_all

/-- For any fused-activation code other than NONE/ReLU/ReLU6 the
generator emits a warning. -/
lemma generator_warns_of_unsupported (cat : Catalog) (a t : Int) (op : TfliteOp)
    (h0 : a ≠ ActivationFunctionType.NONE) (h1 : a ≠ ActivationFunctionType.RELU)
    (h3 : a ≠ ActivationFunctionType.RELU6) :
    (defused_activation_node_generator cat a t op).2 = true := by
  unfold defused_activation_node_generator
  split_ifs <;> simp_all

/-- A node whose operator carries no ReLU/ReLU6 fused activation is
never de-fused. -/
lemma defuse_none_of_unsupported (cat : Catalog) (m : GraphNode)
    (h : ∀ op, m.op = some op → op.fusedActivation ≠ ActivationFunctionType.RELU ∧
      op.fusedActivation ≠ ActivationFunctionType.RELU6) :
    defuse_activation_function cat m = none := by
  unfold defuse_activation_function
  cases hd : m.isDefused
  · simp only [Bool.false_eq_true, if_false]
    cases hop : m.op with
    | none => rfl
    | some op =>
      by_cases ht : m.opType ∈ fusableOpTypes
      · simp only [ht, if_true]
        exact generator_none_of_unsupported cat op.fusedActivation m.opType op
          (h op hop).1 (h op hop).2
      · simp [ht]
  · simp

/-- The de-fusion loop body is the identity on a state whose graph
contains no de-fusable node. -/
lemma defuseStep_noop (cat : Catalog) (st : Graph × List GraphNode) (p : String)
    (h : ∀ m ∈ st.1, defuse_activation_function cat m = none) :
    defuseStep cat st p = st := by
  unfold defuseStep
  cases hf : st.1.find? (fun n => n.node_name = p) with
  | none => rfl
  | some n =>
    have hn : n ∈ st.1 := List.mem_of_find?_eq_some hf
    simp only [h n hn]

/-- The whole enabled de-fusion pass is the identity on a graph with
no de-fusable node. -/
lemma defused_true_id (cat : Catalog) (g : Graph)
    (h : ∀ m ∈ g, defuse_activation_function cat m = none) :
    defused cat true g = g := by
  unfold defused
  simp only [if_true]
  have hfold : ∀ (names : List String), names.foldl (defuseStep cat) (g, []) = (g, []) := by
    intro names
    induction names with
    | nil => rfl
    | cons p rest ih =>
      rw [List.foldl_cons, defuseStep_noop cat (g, []) p h, ih]
  rw [hfold]
  rfl

/-- C8: a node whose embedded fused activation is NONE or an
unsupported kind (tanh, sign-bit, ReLU-[-1,1], or an unrecognized
code) yields no synthesized node; a warning is emitted exactly for the
unsupported (non-NONE) kinds; on a graph made of such nodes the
enabled de-fusion pass leaves the graph unchanged and is idempotent.
The step-level clause shows the no-op is local: the loop body for any
key of such a graph changes nothing. -/
theorem C8_unsupported_fused_activation (cat : Catalog) (g : Graph)
    (h : ∀ m ∈ g, ∀ op, m.op = some op →
      op.fusedActivation ≠ ActivationFunctionType.RELU ∧
      op.fusedActivation ≠ ActivationFunctionType.RELU6) :
    (∀ m ∈ g, defuse_activation_function cat m = none) ∧
    (∀ m ∈ g, ∀ op, m.op = some op → op.fusedActivation ≠ ActivationFunctionType.NONE →
      (defused_activation_node_generator cat op.fusedActivation m.opType op).2 = true) ∧
    (∀ (pend : List GraphNode) (p : String),
      defuseStep cat (g, pend) p = (g, pend)) ∧
    defused cat true g = g ∧
    defused cat true (defused cat true g) = defused cat true g := by
  have hnone : ∀ m ∈ g, defuse_activation_function cat m = none := by
    intro m hm
    exact defuse_none_of_unsupported cat m (h m hm)
  refine ⟨hnone, ?_, ?_, ?_, ?_⟩
  · intro m hm op hop hne
    exact generator_warns_of_unsupported cat op.fusedActivation m.opType op hne
      (h m hm op hop).1 (h m hm op hop).2
  · intro pend p
    exact defuseStep_noop cat (g, pend) p hnone
  · exact defused_true_id cat g hnone
  · rw [defused_true_id cat g hnone, defused_true_id cat g hnone]

/-- C8 witness: a two-node graph — a TANH-fused convolution and a
NONE-fused ReLU — is untouched by the enabled pass. -/
theorem C8_unsupported_fused_activation_witness :
    (∀ m ∈ c8graph, defuse_activation_function (fun _ => "") m = none) ∧
    defused (fun _ => "") true c8graph = c8graph := by
  have h := C8_unsupported_fused_activation (fun _ => "") c8graph (by decide)
  exact ⟨h.1, h.2.2.2.1⟩

/-! ### Helper lemmas for the de-fusion pass (C1) -/

lemma string_append_right_cancel {a b c : String} (h : a ++ c = b ++ c) : a = b := by
  have hd : a.data ++ c.data = b.data ++ c.data := by
    have := congrArg String.data h
    simpa using this
  exact String.ext (List.append_cancel_right hd)

lemma not_mem_left_of_nodup_append {d r : List String} {a : String}
    (h : (d ++ a :: r).Nodup) : a ∉ d := by
  rcases List.nodup_append.1 h with ⟨_, _, h3⟩
  intro hm
  exact h3 hm (List.mem_cons_self a r)

/-- Whether a node de-fuses depends only on the fields the pass never
mutates. -/
lemma defuse_congr (cat : Catalog) {X Xr : GraphNode} (h : coreEq X Xr) :
    defuse_activation_function cat Xr = defuse_activation_function cat X := by
  obtain ⟨-, -, -, -, hop, hty, hdf⟩ := h
  unfold defuse_activation_function
  rw [hop, hty, hdf]

lemma generator_fst_eq_some {cat : Catalog} {a t : Int} {op : TfliteOp} {f : GraphNode}
    (h : (defused_activation_node_generator cat a t op).1 = some f) :
    f = mkDefusedNode cat t op := by
  unfold defused_activation_node_generator at h
  split_ifs at h <;> simp_all

lemma defuse_eq_some {cat : Catalog} {n f : GraphNode}
    (h : defuse_activation_function cat n = some f) :
    ∃ op, n.op = some op ∧ n.isDefused = false ∧ f = mkDefusedNode cat n.opType op := by
  unfold defuse_activation_function at h
  by_cases hd : n.isDefused = true
  · rw [if_pos hd] at h
    cases h
  · rw [if_neg hd] at h
    cases hop : n.op with
    | none =>
      rw [hop] at h
      cases h
    | some op =>
      rw [hop] at h
      have h2 : (if n.opType ∈ fusableOpTypes then
          (defused_activation_node_generator cat op.fusedActivation n.opType op).1
        else none) = some f := h
      by_cases ht : n.opType ∈ fusableOpTypes
      · rw [if_pos ht] at h2
        have hdf : n.isDefused = false := by
          revert hd
          cases n.isDefused <;> simp
        exact ⟨op, rfl, hdf, generator_fst_eq_some h2⟩
      · rw [if_neg ht] at h2
        cases h2

/-- In a graph with distinct names, `find?` by a member's name returns
that member. -/
lemma find?_name_eq_of_mem_nodup : ∀ {g : Graph},
    (g.map (fun n => n.node_name)).Nodup →
    ∀ {X : GraphNode}, X ∈ g →
      g.find? (fun n => n.node_name = X.node_name) = some X := by
  intro g
  induction g with
  | nil =>
    intro _ X hX
    cases hX
  | cons y t ih =>
    intro hnd X hX
    rw [List.map_cons] at hnd
    by_cases hy : y.node_name = X.node_name
    · rw [List.find?_cons_of_pos _ (by simp [hy])]
      rcases List.mem_cons.1 hX with rfl | hX'
      · rfl
      · exfalso
        have hmem : X.node_name ∈ t.map (fun n => n.node_name) :=
          List.mem_map_of_mem _ hX'
        rw [← hy] at hmem
        exact (List.nodup_cons.1 hnd).1 hmem
    · rw [List.find?_cons_of_neg _ (by simp [hy])]
      rcases List.mem_cons.1 hX with rfl | hX'
      · exact absurd rfl hy
      · exact ih (List.nodup_cons.1 hnd).2 hX'

lemma find?_name_prop {g : Graph} {q : String} {P : GraphNode}
    (h : g.find? (fun n => n.node_name = q) = some P) : P.node_name = q := by
  have h1 := List.find?_some h
  simpa using h1

/-- `find?` by name through a name-preserving dict-value update. -/
lemma find?_updateNode (nm t : String) (f : GraphNode → GraphNode)
    (hf : ∀ m, (f m).node_name = m.node_name) :
    ∀ (g : Graph),
      (updateNode g nm f).find? (fun n => n.node_name = t)
        = if t = nm then (g.find? (fun n => n.node_name = t)).map f
          else g.find? (fun n => n.node_name = t) := by
  intro g
  induction g with
  | nil =>
    by_cases ht : t = nm <;> simp [updateNode, ht]
  | cons y rest ih =>
    have hupd : updateNode (y :: rest) nm f
        = (if y.node_name = nm then f y else y) :: updateNode rest nm f := rfl
    rw [hupd]
    by_cases hy : y.node_name = t
    · by_cases hynm : y.node_name = nm
      · have htnm : t = nm := by rw [← hy, hynm]
        rw [if_pos hynm]
        rw [List.find?_cons_of_pos _ (by simp [hf, hy])]
        rw [if_pos htnm, List.find?_cons_of_pos _ (by simp [hy])]
        rfl
      · have htnm : ¬ t = nm := fun hc => hynm (hy.trans hc)
        rw [if_neg hynm]
        rw [List.find?_cons_of_pos _ (by simp [hy])]
        rw [if_neg htnm, List.find?_cons_of_pos _ (by simp [hy])]
    · have hhead : ((if y.node_name = nm then f y else y)).node_name ≠ t := by
        by_cases hynm : y.node_name = nm
        · rw [if_pos hynm, hf y]
          exact hy
        · rw [if_neg hynm]
          exact hy
      rw [List.find?_cons_of_neg _ (by simp [hhead])]
      rw [ih]
      by_cases ht : t = nm
      · rw [if_pos ht, if_pos ht, List.find?_cons_of_neg _ (by simp [hy])]
      · rw [if_neg ht, if_neg ht, List.find?_cons_of_neg _ (by simp [hy])]

/-- A name-preserving dict-value update leaves the name sequence
unchanged. -/
lemma names_updateNode (nm : String) (f : GraphNode → GraphNode)
    (hf : ∀ m, (f m).node_name = m.node_name) :
    ∀ (g : Graph),
      (updateNode g nm f).map (fun n => n.node_name) = g.map (fun n => n.node_name) := by
  intro g
  induction g with
  | nil => rfl
  | cons y rest ih =>
    have hupd : updateNode (y :: rest) nm f
        = (if y.node_name = nm then f y else y) :: updateNode rest nm f := rfl
    rw [hupd, List.map_cons, List.map_cons, ih]
    by_cases hynm : y.node_name = nm <;> simp [hynm, hf]

/-- `find?` by name through the fold of name-keyed consumer updates:
the update function is applied exactly once when the name is among the
(distinct) keys, else not at all. -/
lemma find?_updateFold (u2 : GraphNode → GraphNode)
    (hf : ∀ m, (u2 m).node_name = m.node_name) (t : String) :
    ∀ (outs : List String) (g : Graph), outs.Nodup →
      (outs.foldl (fun acc onm => updateNode acc onm u2) g).find?
          (fun n => n.node_name = t)
        = if t ∈ outs then (g.find? (fun n => n.node_name = t)).map u2
          else g.find? (fun n => n.node_name = t) := by
  intro outs
  induction outs with
  | nil =>
    intro g _
    simp
  | cons onm rest ih =>
    intro g hnd
    rw [List.foldl_cons, ih _ (List.nodup_cons.1 hnd).2]
    by_cases ht : t = onm
    · subst ht
      have htr : t ∉ rest := (List.nodup_cons.1 hnd).1
      rw [if_neg htr, if_pos (List.mem_cons_self t rest),
        find?_updateNode _ _ _ hf, if_pos rfl]
    · rw [find?_updateNode _ _ _ hf, if_neg ht]
      by_cases htr : t ∈ rest
      · rw [if_pos htr, if_pos (List.mem_cons_of_mem _ htr)]
      · rw [if_neg htr, if_neg (by simp [List.mem_cons, ht, htr])]

lemma names_updateFold (u2 : GraphNode → GraphNode)
    (hf : ∀ m, (u2 m).node_name = m.node_name) :
    ∀ (outs : List String) (g : Graph),
      (outs.foldl (fun acc onm => updateNode acc onm u2) g).map (fun n => n.node_name)
        = g.map (fun n => n.node_name) := by
  intro outs
  induction outs with
  | nil =>
    intro g
    rfl
  | cons onm rest ih =>
    intro g
    rw [List.foldl_cons, ih, names_updateNode _ _ hf]

/-- Removing every element of a duplicate-free list from itself
leaves the empty list (the Python `for x in copy: l.remove(x)`). -/
lemma eraseEach_self : ∀ (l : List String), l.Nodup → eraseEach l l = [] := by
  intro l
  induction l with
  | nil =>
    intro _
    rfl
  | cons x xs ih =>
    intro h
    unfold eraseEach
    rw [List.foldl_cons, List.erase_cons_head]
    exact ih (List.nodup_cons.1 h).2

lemma insertNode_fresh {g : Graph} {f : GraphNode}
    (h : f.node_name ∉ g.map (fun n => n.node_name)) : insertNode g f = g ++ [f] := by
  unfold insertNode
  rw [if_neg]
  intro hc
  rcases List.any_eq_true.1 hc with ⟨x, hx, hxf⟩
  exact h (of_decide_eq_true hxf ▸ List.mem_map_of_mem _ hx)

/-- Inserting a list of fresh, pairwise-distinct-name nodes appends
them. -/
lemma foldl_insert_fresh : ∀ (pend : List GraphNode) (g : Graph),
    (∀ f ∈ pend, f.node_name ∉ g.map (fun n => n.node_name)) →
    (pend.map (fun n => n.node_name)).Nodup →
    pend.foldl insertNode g = g ++ pend := by
  intro pend
  induction pend with
  | nil =>
    intro g _ _
    simp
  | cons f rest ih =>
    intro g hfresh hnd
    rw [List.map_cons] at hnd
    rw [List.foldl_cons, insertNode_fresh (hfresh f (List.mem_cons_self f rest))]
    rw [ih (g ++ [f]) ?_ (List.nodup_cons.1 hnd).2]
    · rw [List.append_assoc]
      rfl
    · intro f' hf'
      rw [List.map_append]
      intro hmem
      rcases List.mem_append.1 hmem with hm | hm
      · exact hfresh f' (List.mem_cons_of_mem f hf') hm
      · have : f'.node_name = f.node_name := by simpa using hm
        exact (List.nodup_cons.1 hnd).1 (this ▸ List.mem_map_of_mem _ hf')

lemma pendOf_eq_some {cat : Catalog} {g0 : Graph} {q : String} {F : GraphNode}
    (h : pendOf cat g0 q = some F) :
    ∃ P, g0.find? (fun n => n.node_name = q) = some P ∧
      ∃ f, defuse_activation_function cat P = some f ∧ F = defusePend q P f := by
  unfold pendOf at h
  cases hfind : g0.find? (fun n => n.node_name = q) with
  | none =>
    rw [hfind] at h
    cases h
  | some P =>
    rw [hfind] at h
    have hb : (defuse_activation_function cat P).map (fun f => defusePend q P f)
        = some F := h
    cases hdef : defuse_activation_function cat P with
    | none =>
      rw [hdef] at hb
      cases hb
    | some f =>
      rw [hdef] at hb
      have h' : some (defusePend q P f) = some F := hb
      injection h' with h''
      exact ⟨P, rfl, f, hdef, h''.symm⟩

/-- With a consistent catalog, a de-fused node's name is the host's
name suffixed `_Fused`. -/
lemma defuse_name {cat : Catalog} {g0 : Graph} {n f : GraphNode}
    (HC : ∀ p ∈ g0, ∀ op, p.op = some op → cat op.output = p.node_name)
    (hn : n ∈ g0) (h : defuse_activation_function cat n = some f) :
    f.node_name = n.node_name ++ "_Fused" := by
  rcases defuse_eq_some h with ⟨op, hop, _, rfl⟩
  show cat op.output ++ "_Fused" = n.node_name ++ "_Fused"
  rw [HC n hn op hop]

lemma applyEffect_none {cat : Catalog} {g0 : Graph} {p : String} {P : GraphNode}
    (hfind : g0.find? (fun n => n.node_name = p) = some P)
    (hdef : defuse_activation_function cat P = none) (xname : String) (l : List String) :
    applyEffect cat g0 xname l p = l := by
  simp only [applyEffect, hfind, hdef]

lemma applyEffect_some {cat : Catalog} {g0 : Graph} {p : String} {P f : GraphNode}
    (hfind : g0.find? (fun n => n.node_name = p) = some P)
    (hdef : defuse_activation_function cat P = some f) (xname : String) (l : List String) :
    applyEffect cat g0 xname l p
      = if xname ∈ P.output_nodes_name then (l.erase p) ++ [f.node_name] else l := by
  simp only [applyEffect, hfind, hdef]

lemma pendOf_some {cat : Catalog} {g0 : Graph} {p : String} {P f : GraphNode}
    (hfind : g0.find? (fun n => n.node_name = p) = some P)
    (hdef : defuse_activation_function cat P = some f) :
    pendOf cat g0 p = some (defusePend p P f) := by
  unfold pendOf
  rw [hfind]
  show (defuse_activation_function cat P).map (fun f => defusePend p P f) = _
  rw [hdef]
  rfl

lemma pendOf_none {cat : Catalog} {g0 : Graph} {p : String} {P : GraphNode}
    (hfind : g0.find? (fun n => n.node_name = p) = some P)
    (hdef : defuse_activation_function cat P = none) :
    pendOf cat g0 p = none := by
  unfold pendOf
  rw [hfind]
  show (defuse_activation_function cat P).map (fun f => defusePend p P f) = _
  rw [hdef]
  rfl

/-- One de-fusion loop iteration preserves the loop invariant. -/
lemma defuse_step_inv (cat : Catalog) (g0 : Graph)
    (H1 : (g0.map (fun n => n.node_name)).Nodup)
    (H3 : ∀ P ∈ g0, P.node_name ∉ P.output_nodes_name)
    (H4 : ∀ P ∈ g0, P.output_nodes_name.Nodup)
    (done rest : List String) (p : String)
    (hsplit : g0.map (fun n => n.node_name) = done ++ p :: rest)
    (st : Graph × List GraphNode) (hinv : DefuseInv cat g0 done st) :
    DefuseInv cat g0 (done ++ [p]) (defuseStep cat st p) := by
  obtain ⟨hinv1, hinv2, hinv3⟩ := hinv
  have hpL : p ∈ g0.map (fun n => n.node_name) := by
    rw [hsplit]
    exact List.mem_append_right _ (List.mem_cons_self p rest)
  obtain ⟨Xp, hXp_mem, hXp_name⟩ := List.mem_map.1 hpL
  have hp_not_done : p ∉ done := not_mem_left_of_nodup_append (hsplit ▸ H1)
  have hfindXp : g0.find? (fun n => n.node_name = p) = some Xp := by
    have h := find?_name_eq_of_mem_nodup H1 hXp_mem
    rw [hXp_name] at h
    exact h
  obtain ⟨Xr, hfindXr, hcore, houtN, houtS, hinp⟩ := hinv1 Xp hXp_mem
  have hfindXr' : st.1.find? (fun n => n.node_name = p) = some Xr := by
    rw [← hXp_name]
    exact hfindXr
  have hdefXr : defuse_activation_function cat Xr = defuse_activation_function cat Xp :=
    defuse_congr cat hcore
  cases hdef : defuse_activation_function cat Xp with
  | none =>
    have hstep : defuseStep cat st p = st := by
      simp only [defuseStep, hfindXr', hdefXr, hdef]
    rw [hstep]
    refine ⟨?_, hinv2, ?_⟩
    · intro X hX
      obtain ⟨Xold, hfindOld, hcoreOld, houtNOld, houtSOld, hinpOld⟩ := hinv1 X hX
      refine ⟨Xold, hfindOld, hcoreOld, ?_, ?_, ?_⟩
      · intro hc
        apply houtNOld
        rcases hc with hc | hc
        · exact Or.inl hc
        · exact Or.inr (fun hm => hc (List.mem_append_left _ hm))
      · intro f hdf hmem
        rcases List.mem_append.1 hmem with hm | hm
        · exact houtSOld f hdf hm
        · have hXname : X.node_name = p := by simpa using hm
          have hXeq : X = Xp :=
            node_eq_of_name H1 hX hXp_mem (by rw [hXname, hXp_name])
          rw [hXeq, hdef] at hdf
          cases hdf
      · rw [hinpOld, List.foldl_append]
        have : applyEffect cat g0 X.node_name
            (done.foldl (applyEffect cat g0 X.node_name) X.input_nodes_name) p
            = done.foldl (applyEffect cat g0 X.node_name) X.input_nodes_name :=
          applyEffect_none hfindXp hdef _ _
        rw [List.foldl_cons, List.foldl_nil, this]
    · rw [List.filterMap_append, hinv3]
      have : List.filterMap (pendOf cat g0) [p] = [] := by
        rw [List.filterMap_cons, pendOf_none hfindXp hdef]
        rfl
      rw [this, List.append_nil]
  | some f0 =>
    have hstep : defuseStep cat st p
        = (defuseRewire p Xr f0 st.1, st.2 ++ [defusePend p Xr f0]) := by
      simp only [defuseStep, hfindXr', hdefXr, hdef]
    rw [hstep]
    have houts : Xr.output_nodes_name = Xp.output_nodes_name :=
      houtN (Or.inr (by rw [hXp_name]; exact hp_not_done))
    have houtsNodup : Xr.output_nodes_name.Nodup := by
      rw [houts]
      exact H4 Xp hXp_mem
    have hrew : defuseRewire p Xr f0 st.1
        = Xr.output_nodes_name.foldl
            (fun acc onm => updateNode acc onm (fun m =>
              { m with input_nodes_name := m.input_nodes_name.erase p ++ [f0.node_name] }))
            (updateNode st.1 p (fun m =>
              { m with output_nodes_name := eraseEach m.output_nodes_name Xr.output_nodes_name ++ [f0.node_name] })) :=
      rfl
    refine ⟨?_, ?_, ?_⟩
    · intro X hX
      obtain ⟨Xold, hfindOld, hcoreOld, houtNOld, houtSOld, hinpOld⟩ := hinv1 X hX
      have hfold := find?_updateFold
        (fun m => { m with input_nodes_name := m.input_nodes_name.erase p ++ [f0.node_name] })
        (fun m => rfl) X.node_name Xr.output_nodes_name
        (updateNode st.1 p (fun m =>
          { m with output_nodes_name := eraseEach m.output_nodes_name Xr.output_nodes_name ++ [f0.node_name] }))
        houtsNodup
      have hupd := find?_updateNode p X.node_name
        (fun m => { m with output_nodes_name := eraseEach m.output_nodes_name Xr.output_nodes_name ++ [f0.node_name] })
        (fun m => rfl) st.1
      by_cases hXp' : X.node_name = p
      · -- X is the host node
        have hXeq : X = Xp := node_eq_of_name H1 hX hXp_mem (by rw [hXp', hXp_name])
        have hXoldXr : Xold = Xr := by
          have h1 : st.1.find? (fun n => n.node_name = X.node_name) = some Xold := hfindOld
          rw [hXp'] at h1
          rw [h1] at hfindXr'
          injection hfindXr'
        have hnotouts : X.node_name ∉ Xr.output_nodes_name := by
          rw [hXp', houts, ← hXp_name]
          exact H3 Xp hXp_mem
        rw [hrew]
        rw [hfold, if_neg hnotouts, hupd, if_pos hXp', hfindOld]
        refine ⟨_, rfl, ?_, ?_, ?_, ?_⟩
        · obtain ⟨h1, h2, h3, h4, h5, h6, h7⟩ := hcoreOld
          exact ⟨h1, h2, h3, h4, h5, h6, h7⟩
        · intro hc
          exfalso
          rcases hc with hc | hc
          · rw [hXeq, hdef] at hc
            cases hc
          · exact hc (List.mem_append_right _ (by rw [hXp']; exact List.mem_cons_self p []))
        · intro f hdf _
          have hff : f = f0 := by
            rw [hXeq, hdef] at hdf
            injection hdf with h
            exact h.symm
          show eraseEach Xold.output_nodes_name Xr.output_nodes_name ++ [f0.node_name]
              = [f.node_name]
          rw [hff, hXoldXr, eraseEach_self _ houtsNodup]
          rfl
        · show Xold.input_nodes_name
              = (done ++ [p]).foldl (applyEffect cat g0 X.node_name) X.input_nodes_name
          rw [List.foldl_append, List.foldl_cons, List.foldl_nil]
          rw [applyEffect_some hfindXp hdef, if_neg (by rw [← houts]; exact hnotouts)]
          exact hinpOld
      · -- X is not the host
        rw [hrew, hfold, hupd, if_neg hXp', hfindOld]
        by_cases hXout : X.node_name ∈ Xr.output_nodes_name
        · -- X is a consumer: its input-name list is rewired
          rw [if_pos hXout]
          refine ⟨_, rfl, ?_, ?_, ?_, ?_⟩
          · obtain ⟨h1, h2, h3, h4, h5, h6, h7⟩ := hcoreOld
            exact ⟨h1, h2, h3, h4, h5, h6, h7⟩
          · intro hc
            apply houtNOld
            rcases hc with hc | hc
            · exact Or.inl hc
            · exact Or.inr (fun hm => hc (List.mem_append_left _ hm))
          · intro f hdf hmem
            rcases List.mem_append.1 hmem with hm | hm
            · exact houtSOld f hdf hm
            · exact absurd (by simpa using hm) hXp'
          · show Xold.input_nodes_name.erase p ++ [f0.node_name]
                = (done ++ [p]).foldl (applyEffect cat g0 X.node_name) X.input_nodes_name
            rw [List.foldl_append, List.foldl_cons, List.foldl_nil]
            rw [applyEffect_some hfindXp hdef,
              if_pos (by rw [← houts]; exact hXout), hinpOld]
        · rw [if_neg hXout]
          refine ⟨Xold, rfl, hcoreOld, ?_, ?_, ?_⟩
          · intro hc
            apply houtNOld
            rcases hc with hc | hc
            · exact Or.inl hc
            · exact Or.inr (fun hm => hc (List.mem_append_left _ hm))
          · intro f hdf hmem
            rcases List.mem_append.1 hmem with hm | hm
            · exact houtSOld f hdf hm
            · exact absurd (by simpa using hm) hXp'
          · rw [hinpOld, List.foldl_append, List.foldl_cons, List.foldl_nil]
            rw [applyEffect_some hfindXp hdef,
              if_neg (by rw [← houts]; exact hXout)]
    · show ((defuseRewire p Xr f0 st.1).map (fun n => n.node_name))
          = g0.map (fun n => n.node_name)
      rw [hrew]
      rw [names_updateFold
        (fun m => { m with input_nodes_name := m.input_nodes_name.erase p ++ [f0.node_name] })
        (fun m => rfl)]
      rw [names_updateNode p
        (fun m => { m with output_nodes_name := eraseEach m.output_nodes_name Xr.output_nodes_name ++ [f0.node_name] })
        (fun m => rfl)]
      exact hinv2
    · rw [List.filterMap_append, hinv3]
      have hpend1 : List.filterMap (pendOf cat g0) [p] = [defusePend p Xp f0] := by
        rw [List.filterMap_cons, pendOf_some hfindXp hdef]
        rfl
      rw [hpend1]
      have heq : defusePend p Xr f0 = defusePend p Xp f0 := by
        unfold defusePend
        rw [houts]
      rw [heq]

/-- The invariant holds before any key is processed. -/
lemma defuse_inv_init (cat : Catalog) (g0 : Graph)
    (H1 : (g0.map (fun n => n.node_name)).Nodup) :
    DefuseInv cat g0 [] (g0, []) := by
  refine ⟨?_, rfl, rfl⟩
  intro X hX
  exact ⟨X, find?_name_eq_of_mem_nodup H1 hX, ⟨rfl, rfl, rfl, rfl, rfl, rfl, rfl⟩,
    fun _ => rfl, fun f _ hmem => absurd hmem (List.not_mem_nil _), rfl⟩

/-- The invariant carries through the whole de-fusion loop. -/
lemma defuse_loop_inv (cat : Catalog) (g0 : Graph)
    (H1 : (g0.map (fun n => n.node_name)).Nodup)
    (H3 : ∀ P ∈ g0, P.node_name ∉ P.output_nodes_name)
    (H4 : ∀ P ∈ g0, P.output_nodes_name.Nodup) :
    ∀ (rest done : List String) (st : Graph × List GraphNode),
      g0.map (fun n => n.node_name) = done ++ rest →
      DefuseInv cat g0 done st →
      DefuseInv cat g0 (done ++ rest) (rest.foldl (defuseStep cat) st) := by
  intro rest
  induction rest with
  | nil =>
    intro done st hsplit hinv
    rw [List.append_nil, List.foldl_nil]
    exact hinv
  | cons p rest' ih =>
    intro done st hsplit hinv
    rw [List.foldl_cons]
    have hstep := defuse_step_inv cat g0 H1 H3 H4 done rest' p hsplit st hinv
    have hsplit' : g0.map (fun n => n.node_name) = (done ++ [p]) ++ rest' := by
      rw [hsplit, List.append_assoc]
      rfl
    have hres := ih (done ++ [p]) (defuseStep cat st p) hsplit' hstep
    rw [List.append_assoc] at hres
    exact hres

/-- A queued fused node's name is its dict key suffixed `_Fused`. -/
lemma pendOf_name_eq {cat : Catalog} {g0 : Graph} {q : String} {F : GraphNode}
    (HC : ∀ p ∈ g0, ∀ op, p.op = some op → cat op.output = p.node_name)
    (h : pendOf cat g0 q = some F) : F.node_name = q ++ "_Fused" := by
  rcases pendOf_eq_some h with ⟨P, hfind, f, hdef, rfl⟩
  have hPq := find?_name_prop hfind
  have hPm := List.mem_of_find?_eq_some hfind
  have hfn := defuse_name HC hPm hdef
  show f.node_name = q ++ "_Fused"
  rw [hfn, hPq]

/-- The queued fused nodes have pairwise distinct names when the keys
are distinct. -/
lemma pend_names_nodup {cat : Catalog} {g0 : Graph}
    (HC : ∀ p ∈ g0, ∀ op, p.op = some op → cat op.output = p.node_name) :
    ∀ (L : List String), L.Nodup →
      ((L.filterMap (pendOf cat g0)).map (fun n => n.node_name)).Nodup := by
  intro L
  induction L with
  | nil =>
    intro _
    exact List.nodup_nil
  | cons q rest ih =>
    intro hnd
    rw [List.filterMap_cons]
    cases hp : pendOf cat g0 q with
    | none => exact ih (List.nodup_cons.1 hnd).2
    | some F =>
      rw [List.map_cons, List.nodup_cons]
      refine ⟨?_, ih (List.nodup_cons.1 hnd).2⟩
      intro hmem
      rcases List.mem_map.1 hmem with ⟨F', hF', hFn⟩
      rcases List.mem_filterMap.1 hF' with ⟨q', hq', hpq'⟩
      have h1 : F'.node_name = q' ++ "_Fused" := pendOf_name_eq HC hpq'
      have h2 : F.node_name = q ++ "_Fused" := pendOf_name_eq HC hp
      have hqq : q' = q := string_append_right_cancel (by rw [← h1, ← h2, hFn])
      exact (List.nodup_cons.1 hnd).1 (hqq ▸ hq')

/-- Every queued fused node's name is fresh with respect to the
original graph. -/
lemma pend_fresh {cat : Catalog} {g0 : Graph}
    (H2 : ∀ p ∈ g0, ∀ q ∈ g0, p.node_name ++ "_Fused" ≠ q.node_name)
    (HC : ∀ p ∈ g0, ∀ op, p.op = some op → cat op.output = p.node_name)
    {L : List String} {F : GraphNode} (hF : F ∈ L.filterMap (pendOf cat g0)) :
    F.node_name ∉ g0.map (fun n => n.node_name) := by
  rcases List.mem_filterMap.1 hF with ⟨q, _, hpq⟩
  rcases pendOf_eq_some hpq with ⟨P, hfind, f, hdef, rfl⟩
  have hPm := List.mem_of_find?_eq_some hfind
  have hfn := defuse_name HC hPm hdef
  intro hmem
  rcases List.mem_map.1 hmem with ⟨Q, hQ, hQn⟩
  exact H2 P hPm Q hQ (by rw [← hfn]; exact hQn.symm)

/-- Processing keys other than `N`'s leaves the count of `N`'s name in
an input-name list unchanged and keeps the fused name present. -/
lemma effects_keep (cat : Catalog) (g0 : Graph) (N : GraphNode) (hN : N ∈ g0)
    (H2 : ∀ p ∈ g0, ∀ q ∈ g0, p.node_name ++ "_Fused" ≠ q.node_name)
    (HC : ∀ p ∈ g0, ∀ op, p.op = some op → cat op.output = p.node_name)
    (mname : String) :
    ∀ (ps : List String) (l : List String),
      N.node_name ∉ ps →
      (ps.foldl (applyEffect cat g0 mname) l).count N.node_name = l.count N.node_name ∧
      ((N.node_name ++ "_Fused") ∈ l →
        (N.node_name ++ "_Fused") ∈ ps.foldl (applyEffect cat g0 mname) l) := by
  intro ps
  induction ps with
  | nil =>
    intro l _
    exact ⟨rfl, id⟩
  | cons q rest ih =>
    intro l hnm
    have hqn : q ≠ N.node_name := fun h => hnm (h ▸ List.mem_cons_self q rest)
    have hnm' : N.node_name ∉ rest := fun h => hnm (List.mem_cons_of_mem q h)
    rw [List.foldl_cons]
    cases hfind : g0.find? (fun n => n.node_name = q) with
    | none =>
      have heq : applyEffect cat g0 mname l q = l := by
        simp only [applyEffect, hfind]
      rw [heq]
      exact ih l hnm'
    | some P =>
      have hPm : P ∈ g0 := List.mem_of_find?_eq_some hfind
      have hPn : P.node_name = q := find?_name_prop hfind
      cases hdefP : defuse_activation_function cat P with
      | none =>
        rw [applyEffect_none hfind hdefP]
        exact ih l hnm'
      | some f =>
        rw [applyEffect_some hfind hdefP]
        by_cases hmem : mname ∈ P.output_nodes_name
        · rw [if_pos hmem]
          have hfname : f.node_name = P.node_name ++ "_Fused" := defuse_name HC hPm hdefP
          have hfN : f.node_name ≠ N.node_name := by
            rw [hfname]
            exact H2 P hPm N hN
          have hcount : ((l.erase q) ++ [f.node_name]).count N.node_name
              = l.count N.node_name := by
            rw [List.count_append, List.count_erase_of_ne (Ne.symm hqn)]
            have h0 : [f.node_name].count N.node_name = 0 :=
              List.count_eq_zero.2 (by simp [Ne.symm hfN])
            rw [h0]
            omega
          have hmem2 : (N.node_name ++ "_Fused") ∈ l →
              (N.node_name ++ "_Fused") ∈ (l.erase q) ++ [f.node_name] := by
            intro hl
            apply List.mem_append_left
            have hne : (N.node_name ++ "_Fused") ≠ q := by
              rw [← hPn]
              exact H2 N hN P hPm
            exact (List.mem_erase_of_ne hne).2 hl
          obtain ⟨ih1, ih2⟩ := ih ((l.erase q) ++ [f.node_name]) hnm'
          exact ⟨ih1.trans hcount, fun hl => ih2 (hmem2 hl)⟩
        · rw [if_neg hmem]
          exact ih l hnm'

/-- After the whole key list is processed, a consumer that listed `N`
exactly once lists the fused name and no longer lists `N`. -/
lemma effects_result (cat : Catalog) (g0 : Graph) (N f0 : GraphNode)
    (H1 : (g0.map (fun n => n.node_name)).Nodup)
    (H2 : ∀ p ∈ g0, ∀ q ∈ g0, p.node_name ++ "_Fused" ≠ q.node_name)
    (HC : ∀ p ∈ g0, ∀ op, p.op = some op → cat op.output = p.node_name)
    (hN : N ∈ g0) (hdef : defuse_activation_function cat N = some f0)
    (mname : String) (hmem : mname ∈ N.output_nodes_name)
    (l0 : List String) (hcount : l0.count N.node_name = 1) :
    (N.node_name ++ "_Fused")
        ∈ (g0.map (fun n => n.node_name)).foldl (applyEffect cat g0 mname) l0 ∧
    N.node_name
        ∉ (g0.map (fun n => n.node_name)).foldl (applyEffect cat g0 mname) l0 := by
  have hNL : N.node_name ∈ g0.map (fun n => n.node_name) := List.mem_map_of_mem _ hN
  rcases List.append_of_mem hNL with ⟨A, B, hsplit⟩
  have hndL : (A ++ N.node_name :: B).Nodup := hsplit ▸ H1
  have hNA : N.node_name ∉ A := not_mem_left_of_nodup_append hndL
  have hNB : N.node_name ∉ B :=
    (List.nodup_cons.1 (List.nodup_append.1 hndL).2.1).1
  have hfindN : g0.find? (fun n => n.node_name = N.node_name) = some N :=
    find?_name_eq_of_mem_nodup H1 hN
  have hfname : f0.node_name = N.node_name ++ "_Fused" := defuse_name HC hN hdef
  rw [hsplit, List.foldl_append, List.foldl_cons]
  obtain ⟨hA1, _⟩ := effects_keep cat g0 N hN H2 HC mname A l0 hNA
  set l1 := A.foldl (applyEffect cat g0 mname) l0 with hl1
  have heff : applyEffect cat g0 mname l1 N.node_name
      = (l1.erase N.node_name) ++ [f0.node_name] := by
    rw [applyEffect_some hfindN hdef, if_pos hmem]
  rw [heff]
  have hfN : f0.node_name ≠ N.node_name := by
    rw [hfname]
    exact H2 N hN N hN
  have hcount2 : ((l1.erase N.node_name) ++ [f0.node_name]).count N.node_name = 0 := by
    rw [List.count_append, List.count_erase_self, hA1, hcount]
    have h0 : [f0.node_name].count N.node_name = 0 :=
      List.count_eq_zero.2 (by simp [Ne.symm hfN])
    rw [h0]
  have hfmem : (N.node_name ++ "_Fused") ∈ (l1.erase N.node_name) ++ [f0.node_name] := by
    apply List.mem_append_right
    rw [← hfname]
    exact List.mem_singleton.2 rfl
  obtain ⟨hB1, hB2⟩ :=
    effects_keep cat g0 N hN H2 HC mname B ((l1.erase N.node_name) ++ [f0.node_name]) hNB
  refine ⟨hB2 hfmem, ?_⟩
  rw [← List.count_eq_zero, hB1, hcount2]

/-- C1 counterexample: on the CONV_2D(ReLU-fused) → RELU model, after
the enabled pass the consumer `m` still lists index 1 (the host `n`)
in its input-INDEX list — not the sentinel -1 of the fused node — and
`n`'s output-INDEX list still lists `m`; only the name lists are
rewired.  The claim's index-form rewiring assertions are false. -/
theorem C1_counterexample :
    ((Tree.build c1cat c1ops true).toOption.map (fun g =>
      g.map (fun n => (n.node_name, n.node_idx, n.input_nodes_idx, n.input_nodes_name,
        n.output_nodes_idx, n.output_nodes_name))))
      = some [("n", 1, [], [], [2], ["n_Fused"]),
              ("m", 2, [1], ["n_Fused"], [], []),
              ("n_Fused", -1, [0], ["n"], [], ["m"])] ∧
    ¬ ((-1 : Int) ∈ ([1] : List Int)) := by
  exact ⟨rfl, by decide⟩

/-- C1 (amended): for every graph (with distinct node names, no
`_Fused`-suffixed collisions, no self-loops, duplicate-free output
name lists, a catalog consistent with the node names, and each
consumer listing the host at most once) and every node N the enabled
de-fusion pass successfully splits into F: in NAME form N's output
list becomes exactly `[<N>_Fused]` and every consumer M lists
`<N>_Fused` instead of N — but the INDEX lists are left untouched: M's
input-index list and N's output-index list are unchanged (no sentinel
-1 is written into any consumer), and F itself carries sentinel index
-1 with its input-index list equal to the raw operator inputs, so the
index/name lock-step invariant is not maintained. -/
theorem C1_defuse_rewires_names_only (cat : Catalog) (g : Graph)
    (H1 : (g.map (fun n => n.node_name)).Nodup)
    (H2 : ∀ p ∈ g, ∀ q ∈ g, p.node_name ++ "_Fused" ≠ q.node_name)
    (H3 : ∀ P ∈ g, P.node_name ∉ P.output_nodes_name)
    (H4 : ∀ P ∈ g, P.output_nodes_name.Nodup)
    (HC : ∀ p ∈ g, ∀ op, p.op = some op → cat op.output = p.node_name)
    (N : GraphNode) (hN : N ∈ g) (f0 : GraphNode)
    (hdef : defuse_activation_function cat N = some f0) :
    (∃ Nr, (defused cat true g).find? (fun n => n.node_name = N.node_name) = some Nr ∧
      Nr.output_nodes_name = [N.node_name ++ "_Fused"] ∧
      Nr.output_nodes_idx = N.output_nodes_idx ∧
      Nr.input_nodes_idx = N.input_nodes_idx) ∧
    (∃ F, (defused cat true g).find?
        (fun n => n.node_name = N.node_name ++ "_Fused") = some F ∧
      F.node_idx = -1 ∧ F.input_nodes_name = [N.node_name] ∧
      F.output_nodes_name = N.output_nodes_name ∧
      (∀ op, N.op = some op → F.input_nodes_idx = op.inputs)) ∧
    (∀ M, M ∈ g → M.node_name ∈ N.output_nodes_name →
      M.input_nodes_name.count N.node_name = 1 →
      ∃ Mr, (defused cat true g).find? (fun n => n.node_name = M.node_name) = some Mr ∧
        (N.node_name ++ "_Fused") ∈ Mr.input_nodes_name ∧
        N.node_name ∉ Mr.input_nodes_name ∧
        Mr.input_nodes_idx = M.input_nodes_idx) := by
  have hinvF := defuse_loop_inv cat g H1 H3 H4 (g.map (fun n => n.node_name)) [] (g, [])
    (by rw [List.nil_append]) (defuse_inv_init cat g H1)
  rw [List.nil_append] at hinvF
  obtain ⟨hinv1, hinv2, hinv3⟩ := hinvF
  have hfin : defused cat true g
      = ((g.map (fun n => n.node_name)).foldl (defuseStep cat) (g, [])).2.foldl insertNode
        ((g.map (fun n => n.node_name)).foldl (defuseStep cat) (g, [])).1 := rfl
  have hfresh : ∀ F ∈ ((g.map (fun n => n.node_name)).foldl (defuseStep cat) (g, [])).2,
      F.node_name ∉ ((g.map (fun n => n.node_name)).foldl (defuseStep cat)
        (g, [])).1.map (fun n => n.node_name) := by
    intro F hF
    rw [hinv2]
    rw [hinv3] at hF
    exact pend_fresh H2 HC hF
  have hpnodup : (((g.map (fun n => n.node_name)).foldl (defuseStep cat)
      (g, [])).2.map (fun n => n.node_name)).Nodup := by
    rw [hinv3]
    exact pend_names_nodup HC _ H1
  have hgfin : defused cat true g
      = ((g.map (fun n => n.node_name)).foldl (defuseStep cat) (g, [])).1
        ++ ((g.map (fun n => n.node_name)).foldl (defuseStep cat) (g, [])).2 := by
    rw [hfin]
    exact foldl_insert_fresh _ _ hfresh hpnodup
  have hNdone : N.node_name ∈ g.map (fun n => n.node_name) := List.mem_map_of_mem _ hN
  have hfname : f0.node_name = N.node_name ++ "_Fused" := defuse_name HC hN hdef
  have hfindN_g : g.find? (fun n => n.node_name = N.node_name) = some N :=
    find?_name_eq_of_mem_nodup H1 hN
  refine ⟨?_, ?_, ?_⟩
  · obtain ⟨Nr, hfindNr, hcoreN, _, houtSN, _⟩ := hinv1 N hN
    refine ⟨Nr, ?_, ?_, hcoreN.2.2.2.1, hcoreN.2.2.1⟩
    · rw [hgfin, List.find?_append, hfindNr]
      rfl
    · rw [houtSN f0 hdef hNdone, hfname]
  · have hpendN : pendOf cat g N.node_name = some (defusePend N.node_name N f0) :=
      pendOf_some hfindN_g hdef
    have hnone1 : ((g.map (fun n => n.node_name)).foldl (defuseStep cat) (g, [])).1.find?
        (fun n => n.node_name = N.node_name ++ "_Fused") = none := by
      apply List.find?_eq_none.2
      intro x hx
      simp only [decide_eq_true_eq]
      intro hxn
      have hxm : x.node_name ∈ ((g.map (fun n => n.node_name)).foldl (defuseStep cat)
          (g, [])).1.map (fun n => n.node_name) := List.mem_map_of_mem _ hx
      rw [hinv2, hxn] at hxm
      rcases List.mem_map.1 hxm with ⟨Q, hQ, hQn⟩
      exact H2 N hN Q hQ hQn.symm
    rcases List.append_of_mem hNdone with ⟨A, B, hsplitL⟩
    have hNA : N.node_name ∉ A := not_mem_left_of_nodup_append (hsplitL ▸ H1)
    have hfindPend : ((g.map (fun n => n.node_name)).foldl (defuseStep cat) (g, [])).2.find?
        (fun n => n.node_name = N.node_name ++ "_Fused")
        = some (defusePend N.node_name N f0) := by
      rw [hinv3, hsplitL, List.filterMap_append, List.filterMap_cons, hpendN]
      rw [List.find?_append]
      have hA_none : (A.filterMap (pendOf cat g)).find?
          (fun n => n.node_name = N.node_name ++ "_Fused") = none := by
        apply List.find?_eq_none.2
        intro Fp hFp
        rcases List.mem_filterMap.1 hFp with ⟨qp, hqp, hpqp⟩
        have h1 := pendOf_name_eq HC hpqp
        simp only [decide_eq_true_eq]
        intro hc
        rw [h1] at hc
        have hqN : qp = N.node_name := string_append_right_cancel hc
        exact hNA (hqN ▸ hqp)
      rw [hA_none]
      show (defusePend N.node_name N f0 :: B.filterMap (pendOf cat g)).find?
          (fun n => n.node_name = N.node_name ++ "_Fused")
          = some (defusePend N.node_name N f0)
      rw [List.find?_cons_of_pos]
      show decide ((defusePend N.node_name N f0).node_name = N.node_name ++ "_Fused") = true
      have hnm : (defusePend N.node_name N f0).node_name = f0.node_name := rfl
      rw [hnm, hfname]
      exact decide_eq_true rfl
    refine ⟨defusePend N.node_name N f0, ?_, rfl, rfl, rfl, ?_⟩
    · rw [hgfin, List.find?_append, hnone1]
      show ((g.map (fun n => n.node_name)).foldl (defuseStep cat) (g, [])).2.find?
          (fun n => n.node_name = N.node_name ++ "_Fused")
          = some (defusePend N.node_name N f0)
      exact hfindPend
    · intro op hop
      rcases defuse_eq_some hdef with ⟨op2, hop2, _, hf0⟩
      have hoe : op = op2 := by
        rw [hop] at hop2
        exact Option.some.inj hop2
      show f0.input_nodes_idx = op.inputs
      rw [hf0, hoe]
      rfl
  · intro M hM hMout hMcount
    obtain ⟨Mr, hfindMr, hcoreM, _, _, hinpM⟩ := hinv1 M hM
    obtain ⟨hin, hout⟩ := effects_result cat g N f0 H1 H2 HC hN hdef M.node_name hMout
      M.input_nodes_name hMcount
    refine ⟨Mr, ?_, ?_, ?_, hcoreM.2.2.1⟩
    · rw [hgfin, List.find?_append, hfindMr]
      rfl
    · rw [hinpM]
      exact hin
    · rw [hinpM]
      exact hout

/-- C1 witness: the amended statement applied to the concrete
CONV_2D(ReLU-fused) → RELU graph. -/
theorem C1_defuse_rewires_names_only_witness :
    (∃ Nr, (defused c1cat true c1graphW).find?
        (fun n => n.node_name = c1nodeN.node_name) = some Nr ∧
      Nr.output_nodes_name = [c1nodeN.node_name ++ "_Fused"] ∧
      Nr.output_nodes_idx = c1nodeN.output_nodes_idx ∧
      Nr.input_nodes_idx = c1nodeN.input_nodes_idx) ∧
    (∃ F, (defused c1cat true c1graphW).find?
        (fun n => n.node_name = c1nodeN.node_name ++ "_Fused") = some F ∧
      F.node_idx = -1 ∧ F.input_nodes_name = [c1nodeN.node_name] ∧
      F.output_nodes_name = c1nodeN.output_nodes_name ∧
      (∀ op, c1nodeN.op = some op → F.input_nodes_idx = op.inputs)) ∧
    (∀ M, M ∈ c1graphW → M.node_name ∈ c1nodeN.output_nodes_name →
      M.input_nodes_name.count c1nodeN.node_name = 1 →
      ∃ Mr, (defused c1cat true c1graphW).find?
          (fun n => n.node_name = M.node_name) = some Mr ∧
        (c1nodeN.node_name ++ "_Fused") ∈ Mr.input_nodes_name ∧
        c1nodeN.node_name ∉ Mr.input_nodes_name ∧
        Mr.input_nodes_idx = M.input_nodes_idx) := by
  refine C1_defuse_rewires_names_only c1cat c1graphW (by decide) (by decide) (by decide)
    (by decide) ?_ c1nodeN (by decide) _ rfl
  intro p hp op hop
  rcases List.mem_cons.1 hp with rfl | hp'
  · have : op = { inputs := [0], output := 1, fusedActivation := 1 } := by
      injection hop with h
      exact h.symm
    rw [this]
    rfl
  · rcases List.mem_cons.1 hp' with rfl | hp''
    · have : op = { inputs := [1], output := 2, fusedActivation := 0 } := by
        injection hop with h
        exact h.symm
      rw [this]
      rfl
    · cases hp''

/-- C10 witness: the statement applied to a ReLU node with two listed
input names, an occupied table and a non-trivial translation. -/
theorem C10_single_predecessor_name_witness :
    (driverLowerArgs [("p", ["p1", "p2"])] "inp"
      { node_idx := 2, node_name := "r", input_nodes_idx := [1, 3],
        input_nodes_name := ["p", "w"], output_nodes_idx := [], output_nodes_name := [],
        op := none, opType := 19, isDefused := false }).2 = none ∧
    (driverLowerArgs [("p", ["p1", "p2"])] "inp"
      { node_idx := 2, node_name := "r", input_nodes_idx := [1, 3],
        input_nodes_name := ["p", "w"], output_nodes_idx := [], output_nodes_name := [],
        op := none, opType := 19, isDefused := false }).1 = ["p2"] := by
  have h := C10_single_predecessor_name [("p", ["p1", "p2"])] "inp"
    { node_idx := 2, node_name := "r", input_nodes_idx := [1, 3],
      input_nodes_name := ["p", "w"], output_nodes_idx := [], output_nodes_name := [],
      op := none, opType := 19, isDefused := false } (by decide)
  refine ⟨h.1, ?_⟩
  rw [h.2.1, h.2.2.1 "p" ["w"] rfl]
  rfl

end ONNXConv
